import Mathlib

/-!
Verification of the report-filing bot (sources: bot.py, database_service.py,
email_service.py, email_reader_service.py).  The Python services are embedded
shallowly: the TinyDB store is a list of records, and external collaborators
(SMTP send, IMAP poll, Telegram notify, LLM drafting) are parameters carrying
the outcome the collaborator produced during the modelled run.

Wall-clock instants (the floats of time.time()) are modelled at whole-second
granularity as integers: create_report derives the record id as
int(time.time()), i.e. the wall-clock second of the call, so two calls during
the same wall-clock second carry the same modelled instant.
-/

namespace AgentApp

/-- The status strings that the code writes into a record
(database_service.py and bot.py). -/
inductive Status where
  | awaiting_approval
  | sending
  | sent
  | send_error
  | cancelled
  | followup_sent
  | reply_received
deriving DecidableEq

/-- One TinyDB document, with the exact fields inserted by create_report
(database_service.py, lines 14-27).  message_id is None until the first
successful send stores the Message-ID. -/
structure Report where
  report_id : ℤ
  chat_id : ℤ
  status : Status
  name : String
  offender_phone_number : String
  official_email : String
  draft : String
  offender_details : Option String
  created_at : ℤ
  last_updated_at : ℤ
  follow_up_count : ℕ
  message_id : Option String
deriving DecidableEq

/-- bot.py line 21: the single source of truth for the follow-up period in days. -/
def FOLLOW_UP_DAYS : ℕ := 7

/-- bot.py lines 23-24: STANDARD_SUBJECT_LINE.format(name=...) puts the name
at the very end of the fixed text, so formatting is appending. -/
def STANDARD_SUBJECT_LINE (name : String) : String :=
  "Urgent: Reporting Unlicensed and Illegal Food Catering Operations - Potential Public Safety Hazard - Requesting Action to stop this catering operation: " ++ name

/-- database_service.create_report: the id is int(time.time()), the
wall-clock second now at which the call runs; the record is inserted in
awaiting_approval with follow_up_count 0 and message_id None. -/
def create_report (now : ℤ) (chat_id : ℤ)
    (name offender_phone_number official_email draft : String)
    (offender_details : Option String) (db : List Report) : ℤ × List Report :=
  let report_id := now
  (report_id,
   db ++ [{ report_id := report_id, chat_id := chat_id, status := Status.awaiting_approval,
            name := name, offender_phone_number := offender_phone_number,
            official_email := official_email, draft := draft,
            offender_details := offender_details, created_at := now,
            last_updated_at := now, follow_up_count := 0, message_id := none }])

/-- database_service.get_report_by_id: db.get returns the first matching document. -/
def get_report_by_id (report_id : ℤ) (db : List Report) : Option Report :=
  db.find? (fun r => r.report_id == report_id)

/-- database_service.update_report_status: sets status and stamps
last_updated_at on every document whose report_id matches. -/
def update_report_status (report_id : ℤ) (new_status : Status) (now : ℤ)
    (db : List Report) : List Report :=
  db.map (fun r => if r.report_id == report_id
                   then { r with status := new_status, last_updated_at := now }
                   else r)

/-- database_service.update_report_message_id: stores the Message-ID value on
every matching document (the value is whatever the send returned). -/
def update_report_message_id (report_id : ℤ) (message_id : Option String)
    (db : List Report) : List Report :=
  db.map (fun r => if r.report_id == report_id
                   then { r with message_id := message_id }
                   else r)

/-- database_service.get_reports_for_follow_up, lines 63-85.  The function
receives days_since_last_update and computes time_delta_seconds from it, but
the line applying it is commented out in the source: the cutoff actually
used is the hardcoded time.time() - 15 of line 77.  The query keeps
documents in status sent or followup_sent whose last_updated_at is below
that cutoff. -/
def get_reports_for_follow_up (now : ℤ) (days_since_last_update : ℕ)
    (db : List Report) : List Report :=
  let _time_delta_seconds := days_since_last_update * 24 * 60 * 60
  let cutoff_time : ℤ := now - 15
  db.filter (fun r =>
    decide ((r.status = Status.sent ∨ r.status = Status.followup_sent) ∧
            r.last_updated_at < cutoff_time))

/-- database_service.increment_follow_up_count: reads the first matching
document, then writes first.follow_up_count + 1, status followup_sent and a
fresh timestamp onto every matching document. -/
def increment_follow_up_count (report_id : ℤ) (now : ℤ) (db : List Report) : List Report :=
  match db.find? (fun r => r.report_id == report_id) with
  | none => db
  | some r =>
    db.map (fun x => if x.report_id == report_id
                     then { x with follow_up_count := r.follow_up_count + 1,
                                   last_updated_at := now,
                                   status := Status.followup_sent }
                     else x)

/-- bot.handle_approval_response, lines 135-172, as a transition on the
pending-approval pointer and the store.  sendResult is the pair returned by
email_service.send_email ((True, msg_id) on success, (False, None) on
failure); t1 and t2 are the instants of the two status writes. -/
def handle_approval_response (pending_approval_id : Option ℤ) (db : List Report)
    (sendResult : Bool × Option String) (t1 t2 : ℤ) : Option ℤ × List Report :=
  match pending_approval_id with
  | none => (none, db)
  | some report_id =>
    match get_report_by_id report_id db with
    | none => (none, db)
    | some _report =>
      let db1 := update_report_status report_id Status.sending t1 db
      match sendResult with
      | (true, message_id) =>
        let db2 := update_report_message_id report_id message_id db1
        (none, update_report_status report_id Status.sent t2 db2)
      | (false, _) =>
        (none, update_report_status report_id Status.send_error t2 db1)

/-! ## Helper lemmas about the store -/

/-- A map whose function preserves report_id commutes with lookup. -/
theorem get_report_by_id_map (f : Report → Report)
    (hf : ∀ x, (f x).report_id = x.report_id) (rid : ℤ) (db : List Report) :
    get_report_by_id rid (db.map f) = (get_report_by_id rid db).map f := by
  unfold get_report_by_id
  induction db with
  | nil => rfl
  | cons r db ih =>
    rw [List.map_cons]
    by_cases h : r.report_id = rid
    · rw [List.find?_cons_of_pos _ (by simp [hf, h]),
          List.find?_cons_of_pos _ (by simp [h])]
      rfl
    · rw [List.find?_cons_of_neg _ (by simp [hf, h]),
          List.find?_cons_of_neg _ (by simp [h])]
      exact ih

theorem find?_eq_some_pred {rid : ℤ} {db : List Report} {r : Report}
    (h : get_report_by_id rid db = some r) : r.report_id = rid := by
  have := List.find?_some h
  simpa using this

theorem update_report_status_id (rid : ℤ) (s : Status) (now : ℤ) (x : Report) :
    ((fun r => if r.report_id == rid
               then { r with status := s, last_updated_at := now }
               else r) x).report_id = x.report_id := by
  dsimp only; split <;> rfl

theorem update_report_message_id_id (rid : ℤ) (m : Option String) (x : Report) :
    ((fun r => if r.report_id == rid
               then { r with message_id := m }
               else r) x).report_id = x.report_id := by
  dsimp only; split <;> rfl

/-! ## Claim theorems for the store and the approval handler -/

def c1_report : Report :=
  { report_id := 1, chat_id := 5, status := Status.sent, name := "N",
    offender_phone_number := "P", official_email := "E", draft := "D",
    offender_details := none, created_at := 0, last_updated_at := 996400,
    follow_up_count := 0, message_id := some "m" }

/-- C1: the code evaluated at a failing input.  A report in status sent whose
last_updated_at is one hour before the sweep (996400 = 1000000 - 3600) is
selected by get_reports_for_follow_up even though it is far more recent than
now minus the configured follow-up period of FOLLOW_UP_DAYS days: the
function ignores its days_since_last_update argument and hardcodes a
15-second cutoff (database_service.py line 77), contradicting its own
docstring and the FOLLOW_UP_DAYS configuration constant of bot.py. -/
theorem c1_follow_up_query_ignores_configured_period :
    get_reports_for_follow_up 1000000 FOLLOW_UP_DAYS [c1_report] = [c1_report] ∧
    (1000000 : ℤ) - (FOLLOW_UP_DAYS : ℤ) * 86400 < c1_report.last_updated_at := by
  constructor
  · decide
  · decide

/-- C2: approving a pending report whose send succeeds with message id M
leaves the report in status sent with message_id = some M, and clears the
pending-approval pointer. -/
theorem c2_approve_success (db : List Report) (rid : ℤ) (r : Report) (M : String)
    (t1 t2 : ℤ) (hget : get_report_by_id rid db = some r) :
    (handle_approval_response (some rid) db (true, some M) t1 t2).1 = none ∧
    ∃ r', get_report_by_id rid (handle_approval_response (some rid) db (true, some M) t1 t2).2 = some r' ∧
      r'.status = Status.sent ∧ r'.message_id = some M := by
  have hpred : (r.report_id == rid) = true := by
    simp [find?_eq_some_pred hget]
  refine ⟨by simp [handle_approval_response, hget], ?_⟩
  simp only [handle_approval_response, hget]
  unfold update_report_status update_report_message_id
  rw [get_report_by_id_map _ (update_report_status_id rid Status.sent t2),
      get_report_by_id_map _ (update_report_message_id_id rid (some M)),
      get_report_by_id_map _ (update_report_status_id rid Status.sending t1),
      hget]
  refine ⟨_, rfl, ?_, ?_⟩ <;> simp [hpred]

/-- C3: approving a pending report whose send fails leaves the report in
status send_error with message_id still unset, and the pending-approval
pointer is cleared whatever the send outcome was. -/
theorem c3_approve_failure (db : List Report) (rid : ℤ) (r : Report)
    (failInfo : Option String) (t1 t2 : ℤ)
    (hget : get_report_by_id rid db = some r) (hmid : r.message_id = none) :
    ((handle_approval_response (some rid) db (false, failInfo) t1 t2).1 = none ∧
     ∃ r', get_report_by_id rid (handle_approval_response (some rid) db (false, failInfo) t1 t2).2 = some r' ∧
       r'.status = Status.send_error ∧ r'.message_id = none) ∧
    ∀ sendResult : Bool × Option String,
      (handle_approval_response (some rid) db sendResult t1 t2).1 = none := by
  have hpred : (r.report_id == rid) = true := by
    simp [find?_eq_some_pred hget]
  refine ⟨⟨by simp [handle_approval_response, hget], ?_⟩, ?_⟩
  · simp only [handle_approval_response, hget]
    unfold update_report_status
    rw [get_report_by_id_map _ (update_report_status_id rid Status.send_error t2),
        get_report_by_id_map _ (update_report_status_id rid Status.sending t1),
        hget]
    refine ⟨_, rfl, ?_, ?_⟩ <;> simp [hpred, hmid]
  · intro sendResult
    cases sendResult with
    | mk ok mid => cases ok <;> simp [handle_approval_response, hget]

def approvalReport : Report :=
  { report_id := 1, chat_id := 7, status := Status.awaiting_approval, name := "n",
    offender_phone_number := "p", official_email := "e", draft := "d",
    offender_details := none, created_at := 0, last_updated_at := 0,
    follow_up_count := 0, message_id := none }

/-- C2 witness: a concrete one-report store, approved with a successful send. -/
theorem c2_approve_success_witness :
    get_report_by_id 1 [approvalReport] = some approvalReport ∧
    ((handle_approval_response (some 1) [approvalReport] (true, some "mid123") 1 2).1 = none ∧
     ∃ r', get_report_by_id 1 (handle_approval_response (some 1) [approvalReport]
        (true, some "mid123") 1 2).2 = some r' ∧
       r'.status = Status.sent ∧ r'.message_id = some "mid123") :=
  ⟨by decide, c2_approve_success [approvalReport] 1 approvalReport "mid123" 1 2 (by decide)⟩

/-- C3 witness: the same store, approved with a failing send. -/
theorem c3_approve_failure_witness :
    get_report_by_id 1 [approvalReport] = some approvalReport ∧
    approvalReport.message_id = none ∧
    (((handle_approval_response (some 1) [approvalReport] (false, none) 1 2).1 = none ∧
      ∃ r', get_report_by_id 1 (handle_approval_response (some 1) [approvalReport]
         (false, none) 1 2).2 = some r' ∧
        r'.status = Status.send_error ∧ r'.message_id = none) ∧
     ∀ sendResult : Bool × Option String,
       (handle_approval_response (some 1) [approvalReport] sendResult 1 2).1 = none) :=
  ⟨by decide, by decide,
   c3_approve_failure [approvalReport] 1 approvalReport none 1 2 (by decide) (by decide)⟩

/-- C9: report ids collide within one wall-clock second.  Two create_report
calls during the same wall-clock second 1700000000 store two distinct
records that both receive id int(time.time()) = 1700000000, so the ids
generated by create_report are not collision-free within the store. -/
theorem c9_same_second_ids_collide :
    (create_report 1700000000 42 "A" "p1" "e1" "d1" none []).1 =
      (create_report 1700000000 42 "B" "p2" "e2" "d2" none
        (create_report 1700000000 42 "A" "p1" "e1" "d1" none []).2).1 ∧
    (create_report 1700000000 42 "B" "p2" "e2" "d2" none
        (create_report 1700000000 42 "A" "p1" "e1" "d1" none []).2).2.Nodup := by
  constructor
  · decide
  · decide

/-! ## The follow-up sweep (bot.send_follow_ups, lines 190-229) -/

/-- One email handed to email_service.send_email by the follow-up sweep;
the send outcome is ignored by the sweep, which only records the attempt. -/
structure SentEmail where
  recipient_email : String
  subject : String
  body : String
  report_id : ℤ
  thread_message_id : Option String
deriving DecidableEq

/-- The body of the for-loop of bot.send_follow_ups: re-check for a reply
(hasReply is the value check_for_reply_to_report returned for that id during
this sweep); on a reply, mark reply_received and continue; with no stored
Message-ID, skip; otherwise draft a follow-up (draftFn is the text the LLM
collaborator returned), hand it to send_email threaded to the stored id, and
increment the follow-up count. -/
def send_follow_ups_step (hasReply : ℤ → Bool) (draftFn : Report → String) (now : ℤ)
    (acc : List Report × List SentEmail) (report : Report) :
    List Report × List SentEmail :=
  if hasReply report.report_id then
    (update_report_status report.report_id Status.reply_received now acc.1, acc.2)
  else
    match report.message_id with
    | none => acc
    | some mid =>
      (increment_follow_up_count report.report_id now acc.1,
       acc.2 ++ [{ recipient_email := report.official_email,
                   subject := "Follow-Up: Urgent Report Regarding " ++ report.name,
                   body := draftFn report, report_id := report.report_id,
                   thread_message_id := some mid }])

/-- bot.send_follow_ups: query the snapshot of due reports, then run the
loop body over it, starting from the current store and an empty send log. -/
def send_follow_ups (hasReply : ℤ → Bool) (draftFn : Report → String) (now : ℤ)
    (db : List Report) : List Report × List SentEmail :=
  (get_reports_for_follow_up now FOLLOW_UP_DAYS db).foldl
    (send_follow_ups_step hasReply draftFn now) (db, [])

/-- Pointwise relation for the C4 invariant: ids are preserved, and the
documents of the distinguished report keep their follow-up count and either
keep their status or move to reply_received. -/
def RelC4 (rid : ℤ) (x x' : Report) : Prop :=
  x'.report_id = x.report_id ∧
  (x.report_id = rid →
    (x'.status = x.status ∨ x'.status = Status.reply_received) ∧
    x'.follow_up_count = x.follow_up_count)

/-- All documents of the given report carry status reply_received. -/
def AllReplyReceived (rid : ℤ) (d : List Report) : Prop :=
  ∀ x ∈ d, x.report_id = rid → x.status = Status.reply_received

/-- No email of the log belongs to the given report. -/
def NoMailFor (rid : ℤ) (out : List SentEmail) : Prop :=
  ∀ e ∈ out, e.report_id ≠ rid

theorem forall₂_map_right {R : Report → Report → Prop} {l₁ l₂ : List Report}
    (h : List.Forall₂ R l₁ l₂) (f : Report → Report)
    (hf : ∀ a b, R a b → R a (f b)) : List.Forall₂ R l₁ (l₂.map f) := by
  induction h with
  | nil => exact List.Forall₂.nil
  | cons hab _ ih => exact List.Forall₂.cons (hf _ _ hab) ih

theorem relC4_update_rr {rid rid' : ℤ} {now : ℤ} {db₀ d : List Report}
    (h : List.Forall₂ (RelC4 rid) db₀ d) :
    List.Forall₂ (RelC4 rid) db₀ (update_report_status rid' Status.reply_received now d) := by
  refine forall₂_map_right h _ ?_
  intro a b hab
  obtain ⟨hid, hcond⟩ := hab
  split
  · exact ⟨hid, fun hr => ⟨Or.inr rfl, (hcond hr).2⟩⟩
  · exact ⟨hid, hcond⟩

theorem relC4_increment {rid rid' : ℤ} {now : ℤ} {db₀ d : List Report}
    (hne : rid' ≠ rid) (h : List.Forall₂ (RelC4 rid) db₀ d) :
    List.Forall₂ (RelC4 rid) db₀ (increment_follow_up_count rid' now d) := by
  unfold increment_follow_up_count
  cases hf : d.find? (fun r => r.report_id == rid') with
  | none => exact h
  | some r1 =>
    refine forall₂_map_right h _ ?_
    intro a b hab
    obtain ⟨hid, hcond⟩ := hab
    by_cases hb : (b.report_id == rid') = true
    · have hne2 : a.report_id ≠ rid := by
        intro ha
        exact hne (by rw [← (beq_iff_eq.1 hb), hid, ha])
      rw [if_pos hb]
      exact ⟨hid, fun hr => absurd hr hne2⟩
    · rw [if_neg hb]
      exact ⟨hid, hcond⟩

theorem allRR_update_rr {rid rid' : ℤ} {now : ℤ} {d : List Report}
    (h : AllReplyReceived rid d) :
    AllReplyReceived rid (update_report_status rid' Status.reply_received now d) := by
  intro x hx hxid
  rcases List.mem_map.1 hx with ⟨b, hb, rfl⟩
  by_cases hb2 : (b.report_id == rid') = true
  · rw [if_pos hb2]
  · rw [if_neg hb2] at hxid ⊢
    exact h b hb hxid

theorem allRR_update_rr_self (rid : ℤ) (now : ℤ) (d : List Report) :
    AllReplyReceived rid (update_report_status rid Status.reply_received now d) := by
  intro x hx hxid
  rcases List.mem_map.1 hx with ⟨b, hb, rfl⟩
  by_cases hbid : b.report_id = rid
  · simp only [hbid, beq_self_eq_true, if_true]
  · exfalso
    apply hbid
    revert hxid
    simp only [beq_eq_false_iff_ne.mpr hbid, Bool.false_eq_true, if_false]
    exact fun h => h

theorem allRR_increment {rid rid' : ℤ} {now : ℤ} {d : List Report}
    (hne : rid' ≠ rid) (h : AllReplyReceived rid d) :
    AllReplyReceived rid (increment_follow_up_count rid' now d) := by
  unfold increment_follow_up_count
  cases hf : d.find? (fun r => r.report_id == rid') with
  | none => exact h
  | some r1 =>
    intro x hx hxid
    rcases List.mem_map.1 hx with ⟨b, hb, rfl⟩
    by_cases hbid : b.report_id = rid'
    · exfalso
      apply hne
      revert hxid
      simp only [hbid, beq_self_eq_true, if_true]
      exact fun h => by rw [← h]
    · simp only [beq_eq_false_iff_ne.mpr hbid, Bool.false_eq_true, if_false] at hxid ⊢
      exact h b hb hxid

/-- Every step of the sweep preserves the C4 invariant for a report whose
pre-send reply check returned true. -/
theorem c4_step_preserves {hasReply : ℤ → Bool} {draftFn : Report → String}
    {now : ℤ} {rid : ℤ} (hR : hasReply rid = true) {db₀ : List Report}
    (acc : List Report × List SentEmail) (rep : Report)
    (hP : List.Forall₂ (RelC4 rid) db₀ acc.1) (hE : NoMailFor rid acc.2) :
    List.Forall₂ (RelC4 rid) db₀ (send_follow_ups_step hasReply draftFn now acc rep).1 ∧
    NoMailFor rid (send_follow_ups_step hasReply draftFn now acc rep).2 := by
  unfold send_follow_ups_step
  by_cases h : hasReply rep.report_id = true
  · simp only [h, if_true]
    exact ⟨relC4_update_rr hP, hE⟩
  · have hne : rep.report_id ≠ rid := by
      intro he; rw [he, hR] at h; exact h rfl
    simp only [h, if_false]
    cases hm : rep.message_id with
    | none => exact ⟨hP, hE⟩
    | some mid =>
      refine ⟨relC4_increment hne hP, ?_⟩
      intro e he
      rcases List.mem_append.1 he with h1 | h1
      · exact hE e h1
      · rcases List.mem_singleton.1 h1 with rfl
        exact hne

theorem c4_step_preserves_Q {hasReply : ℤ → Bool} {draftFn : Report → String}
    {now : ℤ} {rid : ℤ} (hR : hasReply rid = true)
    (acc : List Report × List SentEmail) (rep : Report)
    (hQ : AllReplyReceived rid acc.1) :
    AllReplyReceived rid (send_follow_ups_step hasReply draftFn now acc rep).1 := by
  unfold send_follow_ups_step
  by_cases h : hasReply rep.report_id = true
  · simp only [h, if_true]
    exact allRR_update_rr hQ
  · have hne : rep.report_id ≠ rid := by
      intro he; rw [he, hR] at h; exact h rfl
    simp only [h, if_false]
    cases hm : rep.message_id with
    | none => exact hQ
    | some mid => exact allRR_increment hne hQ

theorem c4_fold_preserves {hasReply : ℤ → Bool} {draftFn : Report → String}
    {now : ℤ} {rid : ℤ} (hR : hasReply rid = true) {db₀ : List Report}
    (L : List Report) (acc : List Report × List SentEmail)
    (hP : List.Forall₂ (RelC4 rid) db₀ acc.1) (hE : NoMailFor rid acc.2) :
    List.Forall₂ (RelC4 rid) db₀ (L.foldl (send_follow_ups_step hasReply draftFn now) acc).1 ∧
    NoMailFor rid (L.foldl (send_follow_ups_step hasReply draftFn now) acc).2 := by
  induction L generalizing acc with
  | nil => exact ⟨hP, hE⟩
  | cons rep L ih =>
    rw [List.foldl_cons]
    obtain ⟨hP', hE'⟩ := c4_step_preserves hR acc rep hP hE
    exact ih _ hP' hE'

theorem c4_fold_preserves_Q {hasReply : ℤ → Bool} {draftFn : Report → String}
    {now : ℤ} {rid : ℤ} (hR : hasReply rid = true)
    (L : List Report) (acc : List Report × List SentEmail)
    (hQ : AllReplyReceived rid acc.1) :
    AllReplyReceived rid (L.foldl (send_follow_ups_step hasReply draftFn now) acc).1 := by
  induction L generalizing acc with
  | nil => exact hQ
  | cons rep L ih =>
    rw [List.foldl_cons]
    exact ih _ (c4_step_preserves_Q hR acc rep hQ)

/-- C4: a report selected by the follow-up sweep whose immediate pre-send
reply check reports a reply is moved straight to reply_received: every
document of that report ends in status reply_received, its follow_up_count
is unchanged, and no follow-up email of the sweep belongs to it. -/
theorem c4_reply_found_skips_follow_up (hasReply : ℤ → Bool)
    (draftFn : Report → String) (now : ℤ) (db : List Report) (r : Report)
    (hmem : r ∈ get_reports_for_follow_up now FOLLOW_UP_DAYS db)
    (hR : hasReply r.report_id = true) :
    (∀ x ∈ (send_follow_ups hasReply draftFn now db).1,
       x.report_id = r.report_id → x.status = Status.reply_received) ∧
    List.Forall₂ (fun x x' => x.report_id = r.report_id →
       x'.follow_up_count = x.follow_up_count)
      db (send_follow_ups hasReply draftFn now db).1 ∧
    (∀ e ∈ (send_follow_ups hasReply draftFn now db).2,
       e.report_id ≠ r.report_id) := by
  obtain ⟨L₁, L₂, hL⟩ := List.append_of_mem hmem
  unfold send_follow_ups
  rw [hL, List.foldl_append, List.foldl_cons]
  have hstart : List.Forall₂ (RelC4 r.report_id) db db :=
    List.forall₂_same.2 (fun x _ => ⟨rfl, fun _ => ⟨Or.inl rfl, rfl⟩⟩)
  have hE0 : NoMailFor r.report_id ([] : List SentEmail) := by
    intro e he; cases he
  obtain ⟨hP1, hE1⟩ := c4_fold_preserves hR L₁ (db, []) hstart hE0
  set acc1 := L₁.foldl (send_follow_ups_step hasReply draftFn now) (db, []) with hacc1
  have hstep : send_follow_ups_step hasReply draftFn now acc1 r =
      (update_report_status r.report_id Status.reply_received now acc1.1, acc1.2) := by
    unfold send_follow_ups_step
    rw [hR, if_pos rfl]
  rw [hstep]
  have hP2 : List.Forall₂ (RelC4 r.report_id) db
      (update_report_status r.report_id Status.reply_received now acc1.1) :=
    relC4_update_rr hP1
  have hQ2 : AllReplyReceived r.report_id
      (update_report_status r.report_id Status.reply_received now acc1.1) :=
    allRR_update_rr_self r.report_id now acc1.1
  obtain ⟨hP3, hE3⟩ := c4_fold_preserves hR L₂
      (update_report_status r.report_id Status.reply_received now acc1.1, acc1.2) hP2 hE1
  have hQ3 := @c4_fold_preserves_Q hasReply draftFn now r.report_id hR L₂
      (update_report_status r.report_id Status.reply_received now acc1.1, acc1.2) hQ2
  refine ⟨hQ3, ?_, hE3⟩
  exact hP3.imp (fun a b hab => fun hr => (hab.2 hr).2)

def c4_report : Report :=
  { report_id := 3, chat_id := 9, status := Status.sent, name := "W",
    offender_phone_number := "P", official_email := "E", draft := "D",
    offender_details := none, created_at := 0, last_updated_at := 0,
    follow_up_count := 2, message_id := some "mid" }

/-- C4 witness: a concrete store with one due report and a reply check that
finds a reply. -/
theorem c4_reply_found_skips_follow_up_witness :
    c4_report ∈ get_reports_for_follow_up 100 FOLLOW_UP_DAYS [c4_report] ∧
    (fun _ : ℤ => true) c4_report.report_id = true ∧
    ((∀ x ∈ (send_follow_ups (fun _ => true) (fun _ => "body") 100 [c4_report]).1,
        x.report_id = c4_report.report_id → x.status = Status.reply_received) ∧
     List.Forall₂ (fun x x' => x.report_id = c4_report.report_id →
        x'.follow_up_count = x.follow_up_count)
       [c4_report] (send_follow_ups (fun _ => true) (fun _ => "body") 100 [c4_report]).1 ∧
     (∀ e ∈ (send_follow_ups (fun _ => true) (fun _ => "body") 100 [c4_report]).2,
        e.report_id ≠ c4_report.report_id)) :=
  ⟨by decide, rfl,
   c4_reply_found_skips_follow_up (fun _ => true) (fun _ => "body") 100 [c4_report]
     c4_report (by decide) rfl⟩

/-! ## The targeted reply check (email_reader_service.check_for_reply_to_report) -/

/-- The outcome of the IMAP session of one check_for_reply_to_report call:
either some step of the session raised, or the SEARCH call returned a
status string and a list of message sets. -/
inductive ImapSearchOutcome where
  | raised
  | completed (status : String) (messages : List String)

/-- email_reader_service.check_for_reply_to_report, lines 56-82: the entire
body sits in a try block whose except Exception handler returns False; on a
completed search the result is status == OK and the first message set being
non-empty (an empty messages list would raise IndexError, also caught and
turned into False). -/
def check_for_reply_to_report (_report_id : ℤ) (outcome : ImapSearchOutcome) : Bool :=
  match outcome with
  | ImapSearchOutcome.raised => false
  | ImapSearchOutcome.completed status messages =>
    match messages with
    | [] => false
    | m :: _ => status == "OK" && !(m == "")

/-- The send log of the sweep only ever grows. -/
theorem send_follow_ups_out_mono {hasReply : ℤ → Bool} {draftFn : Report → String}
    {now : ℤ} (L : List Report) (acc : List Report × List SentEmail)
    {e : SentEmail} (he : e ∈ acc.2) :
    e ∈ (L.foldl (send_follow_ups_step hasReply draftFn now) acc).2 := by
  induction L generalizing acc with
  | nil => exact he
  | cons rep L ih =>
    rw [List.foldl_cons]
    apply ih
    unfold send_follow_ups_step
    by_cases h : hasReply rep.report_id = true
    · simp only [h, if_true]; exact he
    · simp only [h, if_false]
      cases rep.message_id with
      | none => exact he
      | some mid => exact List.mem_append.2 (Or.inl he)

/-- C10: the targeted per-report reply check returns False on every failure
path - in particular when the IMAP session raised - so a transient mail
failure is indistinguishable from no reply, and the follow-up sweep then
still sends a follow-up for every due report that has a stored Message-ID. -/
theorem c10_raised_check_is_false_and_sweep_sends (draftFn : Report → String)
    (now : ℤ) (db : List Report) (r : Report) (mid : String)
    (hmem : r ∈ get_reports_for_follow_up now FOLLOW_UP_DAYS db)
    (hmid : r.message_id = some mid) :
    (∀ rid : ℤ, check_for_reply_to_report rid ImapSearchOutcome.raised = false) ∧
    ∃ e ∈ (send_follow_ups
        (fun rid => check_for_reply_to_report rid ImapSearchOutcome.raised)
        draftFn now db).2, e.report_id = r.report_id := by
  refine ⟨fun _ => rfl, ?_⟩
  obtain ⟨L₁, L₂, hL⟩ := List.append_of_mem hmem
  unfold send_follow_ups
  rw [hL, List.foldl_append, List.foldl_cons]
  set acc1 := L₁.foldl
    (send_follow_ups_step (fun rid => check_for_reply_to_report rid ImapSearchOutcome.raised)
      draftFn now) (db, []) with hacc1
  have hstep : send_follow_ups_step
      (fun rid => check_for_reply_to_report rid ImapSearchOutcome.raised) draftFn now acc1 r =
      (increment_follow_up_count r.report_id now acc1.1,
       acc1.2 ++ [{ recipient_email := r.official_email,
                    subject := "Follow-Up: Urgent Report Regarding " ++ r.name,
                    body := draftFn r, report_id := r.report_id,
                    thread_message_id := some mid }]) := by
    unfold send_follow_ups_step
    rw [if_neg (by simp [check_for_reply_to_report]), hmid]
  rw [hstep]
  refine ⟨{ recipient_email := r.official_email,
            subject := "Follow-Up: Urgent Report Regarding " ++ r.name,
            body := draftFn r, report_id := r.report_id,
            thread_message_id := some mid }, ?_, rfl⟩
  apply send_follow_ups_out_mono
  exact List.mem_append.2 (Or.inr (List.mem_singleton.2 rfl))

/-- C10 witness: the concrete due report of the C4 development, checked
through a raising IMAP session. -/
theorem c10_raised_check_is_false_and_sweep_sends_witness :
    c4_report ∈ get_reports_for_follow_up 100 FOLLOW_UP_DAYS [c4_report] ∧
    c4_report.message_id = some "mid" ∧
    ((∀ rid : ℤ, check_for_reply_to_report rid ImapSearchOutcome.raised = false) ∧
     ∃ e ∈ (send_follow_ups
         (fun rid => check_for_reply_to_report rid ImapSearchOutcome.raised)
         (fun _ => "body") 100 [c4_report]).2, e.report_id = c4_report.report_id) :=
  ⟨by decide, rfl,
   c10_raised_check_is_false_and_sweep_sends (fun _ => "body") 100 [c4_report]
     c4_report "mid" (by decide) rfl⟩

/-! ## The reply reconciliation sweep (bot.check_for_replies_job, lines 232-283) -/

/-- One correlated inbound message as produced by
email_reader_service.check_for_replies: the extracted report id and the
cleaned reply body. -/
structure Reply where
  report_id : ℤ
  full_reply : String
deriving DecidableEq

/-- Observable actions of the reply sweep: a successfully delivered chat
notification, and a status write to the store. -/
inductive Event where
  | notified (report_id : ℤ) (chat_id : ℤ) (text : String)
  | status_set (report_id : ℤ) (s : Status)
deriving DecidableEq

/-- The notification text built in bot.py lines 261-269: the reply content is
truncated at 4000 characters with an explicit truncation marker. -/
def notification_text (report_id : ℤ) (full_reply : String) : String :=
  let full_reply_text :=
    if full_reply.length > 4000
    then String.mk (full_reply.data.take 4000) ++ "\n\n[Message truncated due to length]"
    else full_reply
  "Reply Received for Report " ++ toString report_id ++ "\n\n--- Reply Content ---\n"
    ++ full_reply_text

/-- The body of the for-loop of bot.check_for_replies_job: look the report
up; skip when missing or already reply_received; otherwise send the chat
notification first and, only when it does not raise (notifyOk holds the
transport outcome for that chat during this sweep), write reply_received;
when it raises, the except block leaves the status untouched. -/
def check_step (notifyOk : ℤ → Bool) (now : ℤ)
    (acc : List Report × List Event) (reply : Reply) : List Report × List Event :=
  match get_report_by_id reply.report_id acc.1 with
  | none => acc
  | some report =>
    if report.status = Status.reply_received then acc
    else
      if notifyOk reply.report_id then
        (update_report_status reply.report_id Status.reply_received now acc.1,
         acc.2 ++ [Event.notified reply.report_id report.chat_id
                     (notification_text reply.report_id reply.full_reply),
                   Event.status_set reply.report_id Status.reply_received])
      else acc

/-- bot.check_for_replies_job: process every correlated inbound message in
order against the store, starting from an empty event trace. -/
def check_for_replies_job (notifyOk : ℤ → Bool) (now : ℤ) (db : List Report)
    (replies : List Reply) : List Report × List Event :=
  replies.foldl (check_step notifyOk now) (db, [])

/-- Every step of the sweep either leaves the state alone or, for a found
report that is not yet reply_received and whose notification succeeded,
writes reply_received and appends the notified/status pair to the trace. -/
theorem check_step_cases (notifyOk : ℤ → Bool) (now : ℤ)
    (acc : List Report × List Event) (reply : Reply) :
    check_step notifyOk now acc reply = acc ∨
    ∃ rep, get_report_by_id reply.report_id acc.1 = some rep ∧
      rep.status ≠ Status.reply_received ∧ notifyOk reply.report_id = true ∧
      check_step notifyOk now acc reply =
        (update_report_status reply.report_id Status.reply_received now acc.1,
         acc.2 ++ [Event.notified reply.report_id rep.chat_id
                     (notification_text reply.report_id reply.full_reply),
                   Event.status_set reply.report_id Status.reply_received]) := by
  unfold check_step
  cases hget : get_report_by_id reply.report_id acc.1 with
  | none => exact Or.inl rfl
  | some rep =>
    dsimp only
    by_cases hst : rep.status = Status.reply_received
    · exact Or.inl (by rw [if_pos hst])
    · by_cases hn : notifyOk reply.report_id = true
      · exact Or.inr ⟨rep, rfl, hst, hn, by rw [if_neg hst, if_pos hn]⟩
      · exact Or.inl (by rw [if_neg hst, if_neg hn])

/-- Pointwise relation for the C7 invariant: ids are preserved and the
documents of the distinguished report are untouched. -/
def Rel7 (rid : ℤ) (x x' : Report) : Prop :=
  x'.report_id = x.report_id ∧ (x.report_id = rid → x' = x)

theorem rel7_update_other {rid rid' now : ℤ} {s : Status} {db d : List Report}
    (hne : rid' ≠ rid) (h : List.Forall₂ (Rel7 rid) db d) :
    List.Forall₂ (Rel7 rid) db (update_report_status rid' s now d) := by
  refine forall₂_map_right h _ ?_
  intro a b hab
  obtain ⟨hid, hcond⟩ := hab
  by_cases hb : (b.report_id == rid') = true
  · have hbne : a.report_id ≠ rid := by
      intro ha
      exact hne (by rw [← (beq_iff_eq.1 hb), hid, ha])
    rw [if_pos hb]
    exact ⟨hid, fun hr => absurd hr hbne⟩
  · rw [if_neg hb]
    exact ⟨hid, hcond⟩

/-- Lookup of the distinguished report is unchanged along the C7 invariant. -/
theorem get_of_forall₂_rel7 {rid : ℤ} {db d : List Report} {r : Report}
    (h : List.Forall₂ (Rel7 rid) db d)
    (hget : get_report_by_id rid db = some r) :
    get_report_by_id rid d = some r := by
  induction h with
  | nil => simp [get_report_by_id] at hget
  | @cons a b as bs hab htl ih =>
    obtain ⟨hid, hcond⟩ := hab
    unfold get_report_by_id at hget ⊢
    by_cases ha : a.report_id = rid
    · rw [List.find?_cons_of_pos _ (by simp [ha])] at hget
      rw [List.find?_cons_of_pos _ (by simp [hid, ha])]
      rw [hcond ha]
      exact hget
    · rw [List.find?_cons_of_neg _ (by simp [ha])] at hget
      rw [List.find?_cons_of_neg _ (by simp [hid, ha])]
      exact ih hget

/-- The sweep already notified the distinguished report and all its
documents carry reply_received. -/
def C7Done (rid : ℤ) (st : List Report × List Event) : Prop :=
  AllReplyReceived rid st.1 ∧ ∃ c m, Event.notified rid c m ∈ st.2

theorem c7_step_done {notifyOk : ℤ → Bool} {now rid : ℤ}
    {acc : List Report × List Event} (reply : Reply)
    (h : C7Done rid acc) : C7Done rid (check_step notifyOk now acc reply) := by
  rcases check_step_cases notifyOk now acc reply with heq | ⟨rep, _, _, _, heq⟩
  · rw [heq]; exact h
  · rw [heq]
    obtain ⟨c, m, hm⟩ := h.2
    exact ⟨allRR_update_rr h.1, c, m, List.mem_append.2 (Or.inl hm)⟩

/-- Processing the distinguished reply itself always leaves the sweep in the
done state: either it was already done, or the report is found with its
original status, the notification succeeds and the write happens. -/
theorem c7_step_rid_done {notifyOk : ℤ → Bool} {now rid : ℤ} {db : List Report}
    {r : Report} (hnot : notifyOk rid = true)
    (hget : get_report_by_id rid db = some r)
    (hst : r.status ≠ Status.reply_received)
    (acc : List Report × List Event) (reply : Reply) (hrid : reply.report_id = rid)
    (h : List.Forall₂ (Rel7 rid) db acc.1 ∨ C7Done rid acc) :
    C7Done rid (check_step notifyOk now acc reply) := by
  cases h with
  | inr hB => exact c7_step_done reply hB
  | inl hA =>
    have hget' : get_report_by_id reply.report_id acc.1 = some r := by
      rw [hrid]; exact get_of_forall₂_rel7 hA hget
    unfold check_step
    rw [hget']
    dsimp only
    rw [if_neg hst, hrid, if_pos hnot]
    refine ⟨allRR_update_rr_self rid now acc.1,
            r.chat_id, notification_text rid reply.full_reply, ?_⟩
    exact List.mem_append.2 (Or.inr (List.mem_cons_self _ _))

theorem c7_step_AorB {notifyOk : ℤ → Bool} {now rid : ℤ} {db : List Report}
    {r : Report} (hnot : notifyOk rid = true)
    (hget : get_report_by_id rid db = some r)
    (hst : r.status ≠ Status.reply_received)
    (acc : List Report × List Event) (reply : Reply)
    (h : List.Forall₂ (Rel7 rid) db acc.1 ∨ C7Done rid acc) :
    List.Forall₂ (Rel7 rid) db (check_step notifyOk now acc reply).1 ∨
    C7Done rid (check_step notifyOk now acc reply) := by
  by_cases hrid : reply.report_id = rid
  · exact Or.inr (c7_step_rid_done hnot hget hst acc reply hrid h)
  · cases h with
    | inr hB => exact Or.inr (c7_step_done reply hB)
    | inl hA =>
      left
      rcases check_step_cases notifyOk now acc reply with heq | ⟨rep, _, _, _, heq⟩
      · rw [heq]; exact hA
      · rw [heq]
        exact rel7_update_other hrid hA

theorem c7_fold_AorB {notifyOk : ℤ → Bool} {now rid : ℤ} {db : List Report}
    {r : Report} (hnot : notifyOk rid = true)
    (hget : get_report_by_id rid db = some r)
    (hst : r.status ≠ Status.reply_received)
    (L : List Reply) (acc : List Report × List Event)
    (h : List.Forall₂ (Rel7 rid) db acc.1 ∨ C7Done rid acc) :
    List.Forall₂ (Rel7 rid) db ((L.foldl (check_step notifyOk now) acc)).1 ∨
    C7Done rid (L.foldl (check_step notifyOk now) acc) := by
  induction L generalizing acc with
  | nil => exact h
  | cons reply L ih =>
    rw [List.foldl_cons]
    exact ih _ (c7_step_AorB hnot hget hst acc reply h)

theorem c7_fold_done {notifyOk : ℤ → Bool} {now rid : ℤ}
    (L : List Reply) (acc : List Report × List Event)
    (h : C7Done rid acc) : C7Done rid (L.foldl (check_step notifyOk now) acc) := by
  induction L generalizing acc with
  | nil => exact h
  | cons reply L ih =>
    rw [List.foldl_cons]
    exact ih _ (c7_step_done reply h)

theorem c7_step_false {notifyOk : ℤ → Bool} {now rid : ℤ} {db : List Report}
    (hnotF : notifyOk rid = false)
    (acc : List Report × List Event) (reply : Reply)
    (hA : List.Forall₂ (Rel7 rid) db acc.1) :
    List.Forall₂ (Rel7 rid) db (check_step notifyOk now acc reply).1 := by
  rcases check_step_cases notifyOk now acc reply with heq | ⟨rep, _, _, hok, heq⟩
  · rw [heq]; exact hA
  · rw [heq]
    have hne : reply.report_id ≠ rid := by
      intro he; rw [he, hnotF] at hok; exact Bool.false_ne_true hok
    exact rel7_update_other hne hA

theorem c7_fold_false {notifyOk : ℤ → Bool} {now rid : ℤ} {db : List Report}
    (hnotF : notifyOk rid = false)
    (L : List Reply) (acc : List Report × List Event)
    (hA : List.Forall₂ (Rel7 rid) db acc.1) :
    List.Forall₂ (Rel7 rid) db ((L.foldl (check_step notifyOk now) acc)).1 := by
  induction L generalizing acc with
  | nil => exact hA
  | cons reply L ih =>
    rw [List.foldl_cons]
    exact ih _ (c7_step_false hnotF acc reply hA)

/-- Every status write to reply_received in a trace is preceded by a
successful notification of the same report. -/
def NotifyBeforeSet (notifyOk : ℤ → Bool) (tr : List Event) : Prop :=
  ∀ rid l₁ l₂, tr = l₁ ++ Event.status_set rid Status.reply_received :: l₂ →
    notifyOk rid = true ∧ ∃ c m, Event.notified rid c m ∈ l₁

theorem nbs_nil (notifyOk : ℤ → Bool) : NotifyBeforeSet notifyOk [] := by
  intro rid l₁ l₂ h
  cases l₁ <;> simp at h

theorem nbs_append_block {notifyOk : ℤ → Bool} {tr : List Event}
    {rid' c : ℤ} {m : String} (h : NotifyBeforeSet notifyOk tr)
    (hok : notifyOk rid' = true) :
    NotifyBeforeSet notifyOk
      (tr ++ [Event.notified rid' c m, Event.status_set rid' Status.reply_received]) := by
  intro rid l₁ l₂ heq
  rcases List.append_eq_append_iff.1 heq with ⟨as, ha1, ha2⟩ | ⟨cs, hc1, hc2⟩
  · match as, ha2 with
    | [], ha2 =>
      rw [List.nil_append] at ha2
      injection ha2 with h1 h2
      exact Event.noConfusion h1
    | [x], ha2 =>
      rw [List.cons_append, List.nil_append] at ha2
      injection ha2 with h1 h2
      injection h2 with h3 h4
      injection h3 with h5 h6
      subst h5
      constructor
      · exact hok
      · refine ⟨c, m, ?_⟩
        rw [ha1, ← h1]
        exact List.mem_append.2 (Or.inr (List.mem_cons_self _ _))
    | x :: y :: rest, ha2 =>
      rw [List.cons_append, List.cons_append] at ha2
      injection ha2 with h1 h2
      injection h2 with h3 h4
      exact absurd h4.symm (by simp)
  · match cs, hc2 with
    | [], hc2 =>
      rw [List.nil_append] at hc2
      injection hc2 with h1 h2
      exact Event.noConfusion h1
    | x :: cs', hc2 =>
      rw [List.cons_append] at hc2
      injection hc2 with h1 h2
      rw [← h1] at hc1
      exact h rid l₁ cs' hc1

theorem c7_fold_nbs {notifyOk : ℤ → Bool} {now : ℤ}
    (L : List Reply) (acc : List Report × List Event)
    (h : NotifyBeforeSet notifyOk acc.2) :
    NotifyBeforeSet notifyOk ((L.foldl (check_step notifyOk now) acc)).2 := by
  induction L generalizing acc with
  | nil => exact h
  | cons reply L ih =>
    rw [List.foldl_cons]
    apply ih
    rcases check_step_cases notifyOk now acc reply with heq | ⟨rep, _, _, hok, heq⟩
    · rw [heq]; exact h
    · rw [heq]; exact nbs_append_block h hok

/-- C7: for a correlated reply whose report exists and is not yet
reply_received, the sweep notifies before writing: if the notification for
that chat raises, every document of the report keeps its status (so the next
sweep retries); if it succeeds, the report ends in reply_received and a
notification event was emitted; and any reply_received write in the trace is
preceded by a successful notification of the same report. -/
theorem c7_notify_first_then_update (notifyOk : ℤ → Bool) (now : ℤ)
    (db : List Report) (replies : List Reply) (reply : Reply) (r : Report)
    (hmem : reply ∈ replies)
    (hget : get_report_by_id reply.report_id db = some r)
    (hst : r.status ≠ Status.reply_received) :
    (notifyOk reply.report_id = false →
      List.Forall₂ (fun x x' => x.report_id = reply.report_id → x'.status = x.status)
        db (check_for_replies_job notifyOk now db replies).1) ∧
    (notifyOk reply.report_id = true →
      (∀ x ∈ (check_for_replies_job notifyOk now db replies).1,
         x.report_id = reply.report_id → x.status = Status.reply_received) ∧
      ∃ c m, Event.notified reply.report_id c m ∈
        (check_for_replies_job notifyOk now db replies).2) ∧
    NotifyBeforeSet notifyOk (check_for_replies_job notifyOk now db replies).2 := by
  have hstart : List.Forall₂ (Rel7 reply.report_id) db db :=
    List.forall₂_same.2 (fun x _ => ⟨rfl, fun _ => rfl⟩)
  refine ⟨?_, ?_, ?_⟩
  · intro hF
    unfold check_for_replies_job
    have hfold := @c7_fold_false notifyOk now reply.report_id db hF replies (db, []) hstart
    exact hfold.imp (fun a b hab => fun hr => by rw [hab.2 hr])
  · intro hT
    obtain ⟨L₁, L₂, hL⟩ := List.append_of_mem hmem
    unfold check_for_replies_job
    rw [hL, List.foldl_append, List.foldl_cons]
    have h1 := @c7_fold_AorB notifyOk now reply.report_id db r hT hget hst L₁ (db, [])
      (Or.inl hstart)
    have h2 : C7Done reply.report_id
        (check_step notifyOk now (L₁.foldl (check_step notifyOk now) (db, [])) reply) :=
      c7_step_rid_done hT hget hst _ reply rfl h1
    have h3 := @c7_fold_done notifyOk now reply.report_id L₂ _ h2
    exact ⟨h3.1, h3.2⟩
  · unfold check_for_replies_job
    exact c7_fold_nbs replies (db, []) (nbs_nil notifyOk)

def c7_report : Report :=
  { report_id := 11, chat_id := 3, status := Status.sent, name := "V",
    offender_phone_number := "P", official_email := "E", draft := "D",
    offender_details := none, created_at := 0, last_updated_at := 0,
    follow_up_count := 0, message_id := some "m" }

/-- C7 witness: one sent report, one correlated reply, a transport that
delivers. -/
theorem c7_notify_first_then_update_witness :
    (⟨11, "thanks"⟩ : Reply) ∈ [(⟨11, "thanks"⟩ : Reply)] ∧
    get_report_by_id (Reply.report_id ⟨11, "thanks"⟩) [c7_report] = some c7_report ∧
    c7_report.status ≠ Status.reply_received ∧
    (((fun _ : ℤ => true) (Reply.report_id ⟨11, "thanks"⟩) = false →
       List.Forall₂ (fun x x' => x.report_id = Reply.report_id ⟨11, "thanks"⟩ →
         x'.status = x.status)
         [c7_report]
         (check_for_replies_job (fun _ => true) 5 [c7_report] [⟨11, "thanks"⟩]).1) ∧
     ((fun _ : ℤ => true) (Reply.report_id ⟨11, "thanks"⟩) = true →
       (∀ x ∈ (check_for_replies_job (fun _ => true) 5 [c7_report] [⟨11, "thanks"⟩]).1,
          x.report_id = Reply.report_id ⟨11, "thanks"⟩ →
            x.status = Status.reply_received) ∧
       ∃ c m, Event.notified (Reply.report_id ⟨11, "thanks"⟩) c m ∈
         (check_for_replies_job (fun _ => true) 5 [c7_report] [⟨11, "thanks"⟩]).2) ∧
     NotifyBeforeSet (fun _ => true)
       (check_for_replies_job (fun _ => true) 5 [c7_report] [⟨11, "thanks"⟩]).2) :=
  ⟨by decide, by decide, by decide,
   c7_notify_first_then_update (fun _ => true) 5 [c7_report] [⟨11, "thanks"⟩]
     ⟨11, "thanks"⟩ c7_report (by decide) (by decide) (by decide)⟩

/-! ## Idempotence of the reply sweep (C8) -/

/-- The number of successful notifications for a given report in a trace. -/
def notifiedCount (rid : ℤ) (tr : List Event) : ℕ :=
  (tr.filter (fun e => match e with
    | Event.notified r _ _ => r == rid
    | _ => false)).length

theorem notifiedCount_nil (rid : ℤ) : notifiedCount rid [] = 0 := rfl

theorem notifiedCount_append (rid : ℤ) (t1 t2 : List Event) :
    notifiedCount rid (t1 ++ t2) = notifiedCount rid t1 + notifiedCount rid t2 := by
  simp [notifiedCount, List.filter_append]

theorem notifiedCount_block (rid rid' c : ℤ) (m : String) (s : Status) :
    notifiedCount rid [Event.notified rid' c m, Event.status_set rid' s] =
      if rid' = rid then 1 else 0 := by
  by_cases h : rid' = rid
  · simp [notifiedCount, h]
  · simp [notifiedCount, h]

/-- Invariant of one run: at most one notification for the report so far,
and once one happened all its documents carry reply_received. -/
def C8Inv (rid : ℤ) (st : List Report × List Event) : Prop :=
  notifiedCount rid st.2 ≤ 1 ∧
  (1 ≤ notifiedCount rid st.2 → AllReplyReceived rid st.1)

theorem c8_step {notifyOk : ℤ → Bool} {now rid : ℤ}
    (acc : List Report × List Event) (reply : Reply)
    (h : C8Inv rid acc) : C8Inv rid (check_step notifyOk now acc reply) := by
  rcases check_step_cases notifyOk now acc reply with heq | ⟨rep, hget, hst, hok, heq⟩
  · rw [heq]; exact h
  · rw [heq]
    by_cases hr : reply.report_id = rid
    · have hc0 : notifiedCount rid acc.2 = 0 := by
        by_contra hne
        have h1 : 1 ≤ notifiedCount rid acc.2 := Nat.one_le_iff_ne_zero.2 hne
        have hall := h.2 h1
        have hmemb := List.mem_of_find?_eq_some hget
        have hpred : rep.report_id = reply.report_id := find?_eq_some_pred hget
        exact hst (hall rep hmemb (by rw [hpred, hr]))
      refine ⟨?_, ?_⟩
      · show notifiedCount rid (acc.2 ++ _) ≤ 1
        rw [notifiedCount_append, hc0, notifiedCount_block, if_pos hr]
      · intro _
        show AllReplyReceived rid
          (update_report_status reply.report_id Status.reply_received now acc.1)
        rw [hr]
        exact allRR_update_rr_self rid now acc.1
    · refine ⟨?_, ?_⟩
      · show notifiedCount rid (acc.2 ++ _) ≤ 1
        rw [notifiedCount_append, notifiedCount_block, if_neg hr, Nat.add_zero]
        exact h.1
      · intro hge
        rw [show (update_report_status reply.report_id Status.reply_received now acc.1,
              acc.2 ++ [Event.notified reply.report_id rep.chat_id
                (notification_text reply.report_id reply.full_reply),
              Event.status_set reply.report_id Status.reply_received]).2 =
              acc.2 ++ [Event.notified reply.report_id rep.chat_id
                (notification_text reply.report_id reply.full_reply),
              Event.status_set reply.report_id Status.reply_received] from rfl,
            notifiedCount_append, notifiedCount_block, if_neg hr, Nat.add_zero] at hge
        exact allRR_update_rr (h.2 hge)

theorem c8_fold {notifyOk : ℤ → Bool} {now rid : ℤ}
    (L : List Reply) (acc : List Report × List Event)
    (h : C8Inv rid acc) : C8Inv rid (L.foldl (check_step notifyOk now) acc) := by
  induction L generalizing acc with
  | nil => exact h
  | cons reply L ih =>
    rw [List.foldl_cons]
    exact ih _ (c8_step acc reply h)

/-- Invariant of the second run: every document of the report already
carries reply_received and no notification for it has been emitted. -/
def C8Quiet (rid : ℤ) (st : List Report × List Event) : Prop :=
  AllReplyReceived rid st.1 ∧ notifiedCount rid st.2 = 0

theorem c8_quiet_step {notifyOk : ℤ → Bool} {now rid : ℤ}
    (acc : List Report × List Event) (reply : Reply)
    (h : C8Quiet rid acc) : C8Quiet rid (check_step notifyOk now acc reply) := by
  rcases check_step_cases notifyOk now acc reply with heq | ⟨rep, hget, hst, hok, heq⟩
  · rw [heq]; exact h
  · rw [heq]
    have hr : reply.report_id ≠ rid := by
      intro he
      have hmemb := List.mem_of_find?_eq_some hget
      have hpred : rep.report_id = reply.report_id := find?_eq_some_pred hget
      exact hst (h.1 rep hmemb (by rw [hpred, he]))
    refine ⟨allRR_update_rr h.1, ?_⟩
    show notifiedCount rid (acc.2 ++ _) = 0
    rw [notifiedCount_append, notifiedCount_block, if_neg hr, Nat.add_zero, h.2]

theorem c8_quiet_fold {notifyOk : ℤ → Bool} {now rid : ℤ}
    (L : List Reply) (acc : List Report × List Event)
    (h : C8Quiet rid acc) : C8Quiet rid (L.foldl (check_step notifyOk now) acc) := by
  induction L generalizing acc with
  | nil => exact h
  | cons reply L ih =>
    rw [List.foldl_cons]
    exact ih _ (c8_quiet_step acc reply h)

/-- C8: the reply sweep is idempotent.  Whatever the two transport outcomes,
running the sweep twice over the same inbound message set emits at most one
successful notification per report in total: a report notified in the first
run is found in status reply_received by the second run and skipped. -/
theorem c8_sweep_idempotent_at_most_one_notification
    (notify1 notify2 : ℤ → Bool) (now1 now2 : ℤ)
    (db : List Report) (replies : List Reply) (rid : ℤ) :
    notifiedCount rid ((check_for_replies_job notify1 now1 db replies).2 ++
      (check_for_replies_job notify2 now2
        (check_for_replies_job notify1 now1 db replies).1 replies).2) ≤ 1 := by
  have hinv1 : C8Inv rid (check_for_replies_job notify1 now1 db replies) := by
    unfold check_for_replies_job
    refine c8_fold replies (db, []) ⟨?_, ?_⟩
    · rw [notifiedCount_nil]; omega
    · intro hge; rw [notifiedCount_nil] at hge; omega
  rw [notifiedCount_append]
  by_cases hc : notifiedCount rid (check_for_replies_job notify1 now1 db replies).2 = 0
  · have hinv2 : C8Inv rid (check_for_replies_job notify2 now2
        (check_for_replies_job notify1 now1 db replies).1 replies) := by
      unfold check_for_replies_job
      refine c8_fold replies _ ⟨?_, ?_⟩
      · rw [notifiedCount_nil]; omega
      · intro hge; rw [notifiedCount_nil] at hge; omega
    rw [hc, Nat.zero_add]
    exact hinv2.1
  · have hge : 1 ≤ notifiedCount rid (check_for_replies_job notify1 now1 db replies).2 :=
      Nat.one_le_iff_ne_zero.2 hc
    have hall := hinv1.2 hge
    have hq : C8Quiet rid (check_for_replies_job notify2 now2
        (check_for_replies_job notify1 now1 db replies).1 replies) := by
      unfold check_for_replies_job
      exact c8_quiet_fold replies _ ⟨hall, notifiedCount_nil rid⟩
    have h1 := hinv1.1
    rw [hq.2]
    omega

/-! ## The correlation token scheme (email_service.send_email line 36 and
email_reader_service._parse_report_id_from_subject lines 142-146) -/

/-- The literal part of the token: the text before the digits. -/
def reportTokenHead : List Char := "[Report ID: ".data

/-- Matching a literal pattern at the head of a character list, returning
the remainder on success. -/
def dropTok : List Char → List Char → Option (List Char)
  | [], cs => some cs
  | _ :: _, [] => none
  | p :: ps, c :: cs => if p == c then dropTok ps cs else none

/-- Python int() on a decimal digit string. -/
def digitsVal (ds : List Char) : ℕ :=
  ds.foldl (fun a c => 10 * a + (c.toNat - 48)) 0

/-- One attempt of the regex at a fixed position: the literal, then a
non-empty greedy digit run, then the closing bracket.  For this pattern
backtracking inside the digit run can never succeed (a shorter run is
followed by another digit, not by the bracket), so the greedy run is the
only candidate. -/
def tryTokenAt (cs : List Char) : Option ℕ :=
  match dropTok reportTokenHead cs with
  | none => none
  | some rest =>
    let ds := rest.takeWhile Char.isDigit
    match rest.dropWhile Char.isDigit with
    | ']' :: _ => if ds.isEmpty then none else some (digitsVal ds)
    | _ => none

/-- re.search: the match at the leftmost position where one exists. -/
def searchToken : List Char → Option ℕ
  | [] => none
  | c :: cs =>
    match tryTokenAt (c :: cs) with
    | some n => some n
    | none => searchToken cs

/-- email_reader_service._parse_report_id_from_subject: None on a falsy
subject, otherwise int() of the first capture of the token pattern. -/
def parse_report_id_from_subject (subject : String) : Option ℤ :=
  if subject.data = [] then none
  else (searchToken subject.data).map Int.ofNat

/-- Decimal digits of n, most significant first, by fuelled division. -/
def natToDigitsAux : ℕ → ℕ → List Char
  | 0, _ => []
  | fuel + 1, n =>
    if n = 0 then []
    else natToDigitsAux fuel (n / 10) ++ [Nat.digitChar (n % 10)]

/-- The decimal rendering of a natural number, as the f-string of
send_email renders a non-negative report id. -/
def natRepr (n : ℕ) : List Char :=
  if n = 0 then ['0'] else natToDigitsAux (n + 1) n

/-- The decimal rendering of an integer. -/
def intRepr (n : ℤ) : List Char :=
  if n < 0 then '-' :: natRepr n.natAbs else natRepr n.toNat

/-- email_service.send_email line 36: the subject actually placed on the
outgoing message.  Python truthiness: a report_id of None or 0 leaves the
subject unchanged; otherwise the token is appended. -/
def make_final_subject (subject : String) (report_id : Option ℤ) : String :=
  match report_id with
  | none => subject
  | some rid =>
    if rid = 0 then subject
    else subject ++ " [Report ID: " ++ String.mk (intRepr rid) ++ "]"

/-- C5 counterexample: the claim fails as stated.  A subject name that
itself contains a complete token makes extraction return the embedded id
instead of the appended one (leftmost match), and send_email omits the
token entirely for id 0 (Python truthiness), so extraction returns None
rather than 0. -/
theorem c5_round_trip_counterexample :
    parse_report_id_from_subject
      (make_final_subject (STANDARD_SUBJECT_LINE "Acme [Report ID: 1] Ltd") (some 2)) =
      some 1 ∧
    parse_report_id_from_subject
      (make_final_subject (STANDARD_SUBJECT_LINE "Jane Roe") (some 0)) = none := by
  constructor
  · decide
  · decide

theorem dropTok_append_self (p r : List Char) : dropTok p (p ++ r) = some r := by
  induction p with
  | nil => rfl
  | cons c p ih =>
    rw [List.cons_append]
    unfold dropTok
    rw [if_pos (by simp)]
    exact ih

theorem tryTokenAt_head_ne {c : Char} (cs : List Char) (h : c ≠ '[') :
    tryTokenAt (c :: cs) = none := by
  unfold tryTokenAt
  rw [show reportTokenHead = '[' :: "Report ID: ".data from rfl]
  unfold dropTok
  rw [if_neg (by simp only [beq_iff_eq]; exact fun he => h he.symm)]

theorem searchToken_append_skip {xs : List Char} (h : ∀ c ∈ xs, c ≠ '[')
    (rest : List Char) : searchToken (xs ++ rest) = searchToken rest := by
  induction xs with
  | nil => rfl
  | cons c xs ih =>
    rw [List.cons_append]
    show (match tryTokenAt (c :: (xs ++ rest)) with
          | some n => some n
          | none => searchToken (xs ++ rest)) = searchToken rest
    rw [tryTokenAt_head_ne _ (h c (List.mem_cons_self c xs))]
    exact ih (fun c' hc' => h c' (List.mem_cons_of_mem c hc'))

theorem digitChar_isDigit {d : ℕ} (h : d < 10) : (Nat.digitChar d).isDigit = true := by
  interval_cases d <;> decide

theorem digitChar_toNat {d : ℕ} (h : d < 10) : (Nat.digitChar d).toNat = 48 + d := by
  interval_cases d <;> decide

theorem natToDigitsAux_digits :
    ∀ fuel n, ∀ c ∈ natToDigitsAux fuel n, c.isDigit = true := by
  intro fuel
  induction fuel with
  | zero => intro n c hc; cases hc
  | succ fuel ih =>
    intro n c hc
    unfold natToDigitsAux at hc
    by_cases h0 : n = 0
    · rw [if_pos h0] at hc; cases hc
    · rw [if_neg h0] at hc
      rcases List.mem_append.1 hc with h1 | h1
      · exact ih _ c h1
      · rcases List.mem_singleton.1 h1 with rfl
        exact digitChar_isDigit (Nat.mod_lt n (by norm_num))

theorem natRepr_digits (n : ℕ) : ∀ c ∈ natRepr n, c.isDigit = true := by
  unfold natRepr
  by_cases h : n = 0
  · rw [if_pos h]
    intro c hc
    rcases List.mem_singleton.1 hc with rfl
    decide
  · rw [if_neg h]
    exact natToDigitsAux_digits _ _

theorem natRepr_ne_nil (n : ℕ) : natRepr n ≠ [] := by
  unfold natRepr
  by_cases h : n = 0
  · rw [if_pos h]; simp
  · rw [if_neg h]
    unfold natToDigitsAux
    rw [if_neg h]
    simp

theorem digitsVal_append_digit (xs : List Char) (c : Char) :
    digitsVal (xs ++ [c]) = 10 * digitsVal xs + (c.toNat - 48) := by
  unfold digitsVal
  rw [List.foldl_append]
  rfl

theorem digitsVal_natToDigitsAux :
    ∀ fuel n, n ≤ fuel → digitsVal (natToDigitsAux fuel n) = n := by
  intro fuel
  induction fuel with
  | zero =>
    intro n hn
    have : n = 0 := Nat.le_zero.1 hn
    subst this
    rfl
  | succ fuel ih =>
    intro n hn
    unfold natToDigitsAux
    by_cases h0 : n = 0
    · rw [if_pos h0, h0]; rfl
    · rw [if_neg h0, digitsVal_append_digit]
      have h10 : n % 10 < 10 := Nat.mod_lt n (by norm_num)
      have hdiv : n / 10 < n := Nat.div_lt_self (Nat.pos_of_ne_zero h0) (by norm_num)
      rw [ih (n / 10) (by omega), digitChar_toNat h10]
      omega

theorem digitsVal_natRepr (n : ℕ) : digitsVal (natRepr n) = n := by
  unfold natRepr
  by_cases h : n = 0
  · rw [if_pos h, h]; rfl
  · rw [if_neg h]
    exact digitsVal_natToDigitsAux (n + 1) n (by omega)

theorem takeWhile_append_all {p : Char → Bool} {xs : List Char}
    (h : ∀ c ∈ xs, p c = true) (ys : List Char) :
    (xs ++ ys).takeWhile p = xs ++ ys.takeWhile p := by
  induction xs with
  | nil => rfl
  | cons c xs ih =>
    rw [List.cons_append, List.takeWhile_cons, if_pos (h c (List.mem_cons_self c xs)),
        ih (fun c' hc' => h c' (List.mem_cons_of_mem c hc')), List.cons_append]

theorem dropWhile_append_all {p : Char → Bool} {xs : List Char}
    (h : ∀ c ∈ xs, p c = true) (ys : List Char) :
    (xs ++ ys).dropWhile p = ys.dropWhile p := by
  induction xs with
  | nil => rfl
  | cons c xs ih =>
    rw [List.cons_append, List.dropWhile_cons, if_pos (h c (List.mem_cons_self c xs)),
        ih (fun c' hc' => h c' (List.mem_cons_of_mem c hc'))]

set_option maxRecDepth 4096 in
theorem tmpl_no_bracket :
    ∀ c ∈ ("Urgent: Reporting Unlicensed and Illegal Food Catering Operations - Potential Public Safety Hazard - Requesting Action to stop this catering operation: " : String).data,
      c ≠ '[' := by
  decide

theorem tryTokenAt_token (n : ℕ) :
    tryTokenAt (reportTokenHead ++ (natRepr n ++ [']'])) = some n := by
  unfold tryTokenAt
  rw [dropTok_append_self]
  have htake : (natRepr n ++ [']']).takeWhile Char.isDigit = natRepr n := by
    rw [takeWhile_append_all (natRepr_digits n), List.takeWhile_cons,
        if_neg (by decide)]
    simp
  have hdrop : (natRepr n ++ [']']).dropWhile Char.isDigit = ']' :: [] := by
    rw [dropWhile_append_all (natRepr_digits n), List.dropWhile_cons,
        if_neg (by decide)]
  dsimp only
  rw [htake, hdrop, if_neg (by simp [natRepr_ne_nil n]), digitsVal_natRepr]
  rfl

theorem searchToken_cons_some {c : Char} {cs : List Char} {n : ℕ}
    (h : tryTokenAt (c :: cs) = some n) : searchToken (c :: cs) = some n := by
  show (match tryTokenAt (c :: cs) with
        | some n => some n
        | none => searchToken cs) = some n
  rw [h]

/-- C5 amended: for every positive id and every subject name containing no
opening bracket, the subject send_email builds round-trips through the
inbound pattern to exactly that id. -/
theorem c5_token_round_trip_amended (n : ℕ) (hn : 0 < n) (name : String)
    (hname : ∀ c ∈ name.data, c ≠ '[') :
    parse_report_id_from_subject
      (make_final_subject (STANDARD_SUBJECT_LINE name) (some (n : ℤ))) =
      some (n : ℤ) := by
  have hne : ¬((n : ℤ) = 0) := by exact_mod_cast hn.ne'
  have hrepr : intRepr (n : ℤ) = natRepr n := by
    unfold intRepr
    rw [if_neg (by exact_mod_cast Nat.not_lt.2 (Nat.zero_le n))]
    rw [Int.toNat_natCast]
  unfold make_final_subject
  dsimp only
  rw [if_neg hne, hrepr]
  have hdata : (STANDARD_SUBJECT_LINE name ++ " [Report ID: " ++
      String.mk (natRepr n) ++ "]").data =
      ("Urgent: Reporting Unlicensed and Illegal Food Catering Operations - Potential Public Safety Hazard - Requesting Action to stop this catering operation: ".data
        ++ name.data ++ [' ']) ++ (reportTokenHead ++ (natRepr n ++ [']'])) := by
    rw [String.data_append, String.data_append, String.data_append]
    rw [show (STANDARD_SUBJECT_LINE name).data =
        "Urgent: Reporting Unlicensed and Illegal Food Catering Operations - Potential Public Safety Hazard - Requesting Action to stop this catering operation: ".data
          ++ name.data from by unfold STANDARD_SUBJECT_LINE; rw [String.data_append]]
    rw [show (" [Report ID: " : String).data = ' ' :: reportTokenHead from rfl]
    rw [show (String.mk (natRepr n)).data = natRepr n from rfl]
    rw [show ("]" : String).data = [']'] from rfl]
    simp [List.append_assoc]
  unfold parse_report_id_from_subject
  rw [hdata]
  rw [if_neg (by simp)]
  rw [searchToken_append_skip ?hskip (reportTokenHead ++ (natRepr n ++ [']']))]
  case hskip =>
    intro c hc
    rcases List.mem_append.1 hc with h1 | h1
    · rcases List.mem_append.1 h1 with h2 | h2
      · exact tmpl_no_bracket c h2
      · exact hname c h2
    · rcases List.mem_singleton.1 h1 with rfl
      decide
  have hs : searchToken (reportTokenHead ++ (natRepr n ++ [']'])) = some n :=
    searchToken_cons_some (tryTokenAt_token n)
  rw [hs]
  rfl

/-- C5 amended witness: id 12345 with a plain name. -/
theorem c5_token_round_trip_amended_witness :
    0 < 12345 ∧ (∀ c ∈ ("John Doe" : String).data, c ≠ '[') ∧
    parse_report_id_from_subject
      (make_final_subject (STANDARD_SUBJECT_LINE "John Doe") (some ((12345 : ℕ) : ℤ))) =
      some ((12345 : ℕ) : ℤ) :=
  ⟨by decide, by decide,
   c5_token_round_trip_amended 12345 (by decide) "John Doe" (by decide)⟩

/-! ## Reply body quote-stripping
(email_reader_service._clean_email_body, lines 32-52) -/

/-- The ASCII whitespace characters Python str.strip removes. -/
def isWS (c : Char) : Bool :=
  c == ' ' || c == '\t' || c == '\n' || c == '\r' || c == '\x0b' || c == '\x0c'

/-- Python str.lstrip on a character list. -/
def lstripCh (cs : List Char) : List Char := cs.dropWhile isWS

/-- Python str.rstrip on a character list. -/
def rstripCh (cs : List Char) : List Char := (cs.reverse.dropWhile isWS).reverse

/-- Python str.strip on a character list. -/
def stripCh (cs : List Char) : List Char := lstripCh (rstripCh cs)

/-- str.splitlines for newline-separated text: split at every LF, with no
empty trailing line when the text ends in LF (bodies are modelled as
LF-separated; the other unicode line boundaries play no role here). -/
def splitlinesCh : List Char → List (List Char)
  | [] => []
  | c :: cs =>
    if c = '\n' then [] :: splitlinesCh cs
    else
      match splitlinesCh cs with
      | [] => [[c]]
      | l :: ls => (c :: l) :: ls

/-- The join with LF applied to the kept lines. -/
def joinCh : List (List Char) → List Char
  | [] => []
  | [l] => l
  | l :: ls => l ++ '\n' :: joinCh ls

/-- str.startswith on character lists (pattern first). -/
def startsWithCh : List Char → List Char → Bool
  | [], _ => true
  | _ :: _, [] => false
  | p :: ps, c :: cs => p == c && startsWithCh ps cs

/-- str.endswith on character lists (pattern first). -/
def endsWithCh (p cs : List Char) : Bool := startsWithCh p.reverse cs.reverse

/-- The quote-header markers of _clean_email_body. -/
def cutoff_patterns : List (List Char) :=
  ["--- Original Message ---".data, "---Original Message---".data,
   "From:".data, "Sent:".data, "To:".data, "Subject:".data]

/-- A line at which the scan truncates: its stripped form starts with On and
ends with wrote colon, or equals one of the markers. -/
def lineIsCutoff (l : List Char) : Bool :=
  (startsWithCh "On".data (stripCh l) && endsWithCh "wrote:".data (stripCh l)) ||
  cutoff_patterns.contains (stripCh l)

/-- A line whose stripped form begins with the quote marker. -/
def isQuoteLine (l : List Char) : Bool := startsWithCh ['>'] (stripCh l)

/-- email_reader_service._clean_email_body: truncate at the first cutoff
line; when there is none, drop every quote-marker line instead; finally
strip the joined text. -/
def cleanCh (body : List Char) : List Char :=
  let lines := splitlinesCh body
  if lines.any lineIsCutoff then
    stripCh (joinCh (lines.takeWhile (fun l => !lineIsCutoff l)))
  else
    stripCh (joinCh (lines.filter (fun l => !isQuoteLine l)))

def clean_email_body (body : String) : String := String.mk (cleanCh body.data)

/-- C6 counterexample: quote-stripping is not idempotent.  Stripping the
body with a quoted line above a From marker keeps the quoted line (truncate
branch), but stripping the result again drops it (no cutoff line remains,
so the quote-marker branch runs). -/
theorem c6_strip_idempotence_counterexample :
    clean_email_body "> quoted\nFrom:" = "> quoted" ∧
    clean_email_body (clean_email_body "> quoted\nFrom:") = "" ∧
    clean_email_body (clean_email_body "> quoted\nFrom:") ≠
      clean_email_body "> quoted\nFrom:" := by
  refine ⟨by decide, by decide, by decide⟩

theorem dropWhile_dropWhile (p : Char → Bool) (l : List Char) :
    (l.dropWhile p).dropWhile p = l.dropWhile p := by
  induction l with
  | nil => rfl
  | cons c l ih =>
    by_cases h : p c = true
    · rw [List.dropWhile_cons, if_pos h, ih]
    · rw [List.dropWhile_cons, if_neg h, List.dropWhile_cons, if_neg h]

theorem head?_dropWhile (p : Char → Bool) (l : List Char) :
    ∀ c, (l.dropWhile p).head? = some c → p c = false := by
  induction l with
  | nil => intro c hc; cases hc
  | cons d l ih =>
    intro c hc
    by_cases h : p d = true
    · rw [List.dropWhile_cons, if_pos h] at hc
      exact ih c hc
    · rw [List.dropWhile_cons, if_neg h] at hc
      rcases Option.some.inj hc with rfl
      exact Bool.eq_false_iff.2 h

theorem dropWhile_append_split (p : Char → Bool) (xs ys : List Char) :
    (xs ++ ys).dropWhile p =
      if xs.dropWhile p = [] then ys.dropWhile p else xs.dropWhile p ++ ys := by
  induction xs with
  | nil => simp
  | cons c xs ih =>
    by_cases h : p c = true
    · rw [List.cons_append, List.dropWhile_cons, if_pos h, ih,
          List.dropWhile_cons, if_pos h]
    · rw [List.cons_append, List.dropWhile_cons, if_neg h,
          List.dropWhile_cons, if_neg h, if_neg (by simp), List.cons_append]

theorem rstrip_cons (c : Char) (cs : List Char) :
    rstripCh (c :: cs) =
      if rstripCh cs = [] then (if isWS c then [] else [c])
      else c :: rstripCh cs := by
  unfold rstripCh
  rw [List.reverse_cons, dropWhile_append_split]
  by_cases h : cs.reverse.dropWhile isWS = []
  · rw [if_pos h, if_pos (by rw [h]; rfl)]
    by_cases hc : isWS c = true
    · rw [if_pos hc, List.dropWhile_cons, if_pos hc]
      rfl
    · rw [if_neg hc, List.dropWhile_cons, if_neg hc]
      rfl
  · rw [if_neg h, if_neg (by simp [h]), List.reverse_append]
    rfl

theorem rstrip_getLast_not_ws (cs : List Char) :
    ∀ c, (rstripCh cs).getLast? = some c → isWS c = false := by
  intro c hc
  unfold rstripCh at hc
  rw [List.getLast?_reverse] at hc
  exact head?_dropWhile isWS cs.reverse c hc

theorem rstrip_idem (cs : List Char) : rstripCh (rstripCh cs) = rstripCh cs := by
  unfold rstripCh
  rw [List.reverse_reverse, dropWhile_dropWhile]

theorem rstrip_eq_self {cs : List Char}
    (h : ∀ c, cs.getLast? = some c → isWS c = false) : rstripCh cs = cs := by
  unfold rstripCh
  cases hcs : cs.reverse with
  | nil =>
    have : cs = [] := by simpa using congrArg List.reverse hcs
    rw [this]
    rfl
  | cons d ds =>
    have hd : cs.getLast? = some d := by
      rw [← List.head?_reverse, hcs]
      rfl
    rw [List.dropWhile_cons, if_neg (by rw [h d hd]; exact Bool.false_ne_true),
        ← hcs, List.reverse_reverse]

theorem rstrip_append_ws {ws : List Char} (h : ∀ c ∈ ws, isWS c = true)
    (xs : List Char) : rstripCh (xs ++ ws) = rstripCh xs := by
  unfold rstripCh
  rw [List.reverse_append,
      dropWhile_append_all (fun c hc => h c (List.mem_reverse.1 hc))]

theorem rstrip_eq_nil_all_ws {cs : List Char} (h : rstripCh cs = []) :
    ∀ c ∈ cs, isWS c = true := by
  intro c hc
  unfold rstripCh at h
  have h2 : cs.reverse.dropWhile isWS = [] := by
    simpa using congrArg List.reverse h
  have := List.dropWhile_eq_nil_iff.1 h2
  exact this c (List.mem_reverse.2 hc)

theorem rstrip_decomp (cs : List Char) :
    ∃ ws, cs = rstripCh cs ++ ws ∧ ∀ c ∈ ws, isWS c = true := by
  refine ⟨(cs.reverse.takeWhile isWS).reverse, ?_, ?_⟩
  · unfold rstripCh
    rw [← List.reverse_append, List.takeWhile_append_dropWhile, List.reverse_reverse]
  · intro c hc
    exact List.mem_takeWhile_imp (List.mem_reverse.1 hc)

theorem lstrip_ws_cons {c : Char} (h : isWS c = true) (cs : List Char) :
    lstripCh (c :: cs) = lstripCh cs := by
  unfold lstripCh
  rw [List.dropWhile_cons, if_pos h]

theorem lstrip_not_ws_cons {c : Char} (h : isWS c = false) (cs : List Char) :
    lstripCh (c :: cs) = c :: cs := by
  unfold lstripCh
  rw [List.dropWhile_cons, if_neg (by rw [h]; exact Bool.false_ne_true)]

theorem lstrip_getLast {cs : List Char} (hne : lstripCh cs ≠ []) :
    (lstripCh cs).getLast? = cs.getLast? := by
  induction cs with
  | nil => exact absurd rfl hne
  | cons c cs ih =>
    by_cases h : isWS c = true
    · rw [lstrip_ws_cons h] at hne ⊢
      rw [ih hne]
      have hcs : cs ≠ [] := by
        intro he
        rw [he] at hne
        exact hne rfl
      cases cs with
      | nil => exact absurd rfl hcs
      | cons d ds => rw [List.getLast?_cons_cons]
    · rw [lstrip_not_ws_cons (Bool.eq_false_iff.2 h)]

theorem strip_ws_cons {c : Char} (h : isWS c = true) (cs : List Char) :
    stripCh (c :: cs) = stripCh cs := by
  unfold stripCh
  rw [rstrip_cons]
  by_cases h0 : rstripCh cs = []
  · rw [if_pos h0, if_pos h, h0]
  · rw [if_neg h0, lstrip_ws_cons h]

theorem strip_append_ws {ws : List Char} (h : ∀ c ∈ ws, isWS c = true)
    (xs : List Char) : stripCh (xs ++ ws) = stripCh xs := by
  unfold stripCh
  rw [rstrip_append_ws h]

theorem strip_rstrip (cs : List Char) : stripCh (rstripCh cs) = stripCh cs := by
  unfold stripCh
  rw [rstrip_idem]

theorem strip_getLast_not_ws (cs : List Char) :
    ∀ c, (stripCh cs).getLast? = some c → isWS c = false := by
  intro c hc
  unfold stripCh at hc
  by_cases hne : lstripCh (rstripCh cs) = []
  · rw [hne] at hc; cases hc
  · rw [lstrip_getLast hne] at hc
    exact rstrip_getLast_not_ws cs c hc

theorem lstrip_idem (cs : List Char) : lstripCh (lstripCh cs) = lstripCh cs :=
  dropWhile_dropWhile isWS cs

theorem strip_idem (cs : List Char) : stripCh (stripCh cs) = stripCh cs := by
  by_cases hne : stripCh cs = []
  · rw [hne]; rfl
  · show lstripCh (rstripCh (stripCh cs)) = stripCh cs
    rw [rstrip_eq_self (strip_getLast_not_ws cs)]
    show lstripCh (lstripCh (rstripCh cs)) = stripCh cs
    rw [lstrip_idem]
    rfl

theorem splitlines_cons_nl (cs : List Char) :
    splitlinesCh ('\n' :: cs) = [] :: splitlinesCh cs := rfl

theorem splitlines_cons_not_nl {c : Char} (h : c ≠ '\n') (cs : List Char) :
    splitlinesCh (c :: cs) =
      (match splitlinesCh cs with
       | [] => [[c]]
       | l :: ls => (c :: l) :: ls) := by
  simp only [splitlinesCh]
  rw [if_neg h]

theorem splitlines_nil_iff (cs : List Char) : splitlinesCh cs = [] ↔ cs = [] := by
  cases cs with
  | nil => simp [splitlinesCh]
  | cons c cs =>
    simp only [splitlinesCh]
    by_cases h : c = '\n'
    · rw [if_pos h]
      simp
    · rw [if_neg h]
      cases splitlinesCh cs <;> simp

theorem splitlines_ne_nil {cs : List Char} (h : cs ≠ []) : splitlinesCh cs ≠ [] :=
  fun he => h ((splitlines_nil_iff cs).1 he)

theorem splitlines_chars (cs : List Char) :
    ∀ l ∈ splitlinesCh cs, ∀ x ∈ l, x ∈ cs := by
  induction cs with
  | nil => intro l hl; cases hl
  | cons c cs ih =>
    intro l hl x hx
    by_cases h : c = '\n'
    · rw [show splitlinesCh (c :: cs) = [] :: splitlinesCh cs from by
        simp only [splitlinesCh]; rw [if_pos h]] at hl
      rcases List.mem_cons.1 hl with rfl | hl2
      · cases hx
      · exact List.mem_cons_of_mem c (ih l hl2 x hx)
    · rw [show splitlinesCh (c :: cs) =
          (match splitlinesCh cs with
           | [] => [[c]]
           | l :: ls => (c :: l) :: ls) from by
        simp only [splitlinesCh]; rw [if_neg h]] at hl
      cases hsc : splitlinesCh cs with
      | nil =>
        rw [hsc] at hl
        rcases List.mem_singleton.1 hl with rfl
        rcases List.mem_singleton.1 hx with rfl
        exact List.mem_cons_self _ _
      | cons k ks =>
        rw [hsc] at hl
        rcases List.mem_cons.1 hl with rfl | hl2
        · rcases List.mem_cons.1 hx with rfl | hx2
          · exact List.mem_cons_self _ _
          · exact List.mem_cons_of_mem c
              (ih k (by rw [hsc]; exact List.mem_cons_self k ks) x hx2)
        · exact List.mem_cons_of_mem c
            (ih l (by rw [hsc]; exact List.mem_cons_of_mem k hl2) x hx)

theorem splitlines_no_nl (cs : List Char) :
    ∀ l ∈ splitlinesCh cs, '\n' ∉ l := by
  induction cs with
  | nil => intro l hl; cases hl
  | cons c cs ih =>
    intro l hl
    by_cases h : c = '\n'
    · rw [show splitlinesCh (c :: cs) = [] :: splitlinesCh cs from by
        simp only [splitlinesCh]; rw [if_pos h]] at hl
      rcases List.mem_cons.1 hl with rfl | hl2
      · simp
      · exact ih l hl2
    · rw [show splitlinesCh (c :: cs) =
          (match splitlinesCh cs with
           | [] => [[c]]
           | l :: ls => (c :: l) :: ls) from by
        simp only [splitlinesCh]; rw [if_neg h]] at hl
      cases hsc : splitlinesCh cs with
      | nil =>
        rw [hsc] at hl
        rcases List.mem_singleton.1 hl with rfl
        intro hmem
        rcases List.mem_singleton.1 hmem with he
        exact h he.symm
      | cons k ks =>
        rw [hsc] at hl
        rcases List.mem_cons.1 hl with rfl | hl2
        · intro hmem
          rcases List.mem_cons.1 hmem with he | hmem2
          · exact h he.symm
          · exact ih k (by rw [hsc]; exact List.mem_cons_self k ks) hmem2
        · exact ih l (by rw [hsc]; exact List.mem_cons_of_mem k hl2)

theorem join_cons_head (c : Char) (l : List Char) (ls : List (List Char)) :
    joinCh ((c :: l) :: ls) = c :: joinCh (l :: ls) := by
  cases ls with
  | nil => rfl
  | cons l2 ls => rfl

theorem join_splitlines {cs : List Char}
    (h : ∀ c, cs.getLast? = some c → c ≠ '\n') :
    joinCh (splitlinesCh cs) = cs := by
  induction cs with
  | nil => rfl
  | cons c cs ih =>
    by_cases hc : c = '\n'
    · subst hc
      have hcs : cs ≠ [] := by
        intro he
        subst he
        exact (h '\n' rfl) rfl
      rw [splitlines_cons_nl]
      obtain ⟨k, ks, hk⟩ := List.exists_cons_of_ne_nil (splitlines_ne_nil hcs)
      rw [hk]
      show ([] : List Char) ++ '\n' :: joinCh (k :: ks) = '\n' :: cs
      rw [List.nil_append, ← hk, ih ?_]
      intro c' hc'
      apply h c'
      cases cs with
      | nil => exact absurd rfl hcs
      | cons d ds => rw [List.getLast?_cons_cons]; exact hc'
    · rw [splitlines_cons_not_nl hc]
      cases hsc : splitlinesCh cs with
      | nil =>
        have : cs = [] := (splitlines_nil_iff cs).1 hsc
        subst this
        rfl
      | cons k ks =>
        rw [join_cons_head, ← hsc, ih ?_]
        intro c' hc'
        apply h c'
        have hcs : cs ≠ [] := by
          intro he
          rw [he] at hsc
          simp [splitlinesCh] at hsc
        cases cs with
        | nil => exact absurd rfl hcs
        | cons d ds => rw [List.getLast?_cons_cons]; exact hc'

theorem splitlines_append_nl {l : List Char} (hl : '\n' ∉ l) (rest : List Char) :
    splitlinesCh (l ++ '\n' :: rest) = l :: splitlinesCh rest := by
  induction l with
  | nil =>
    rw [List.nil_append, splitlines_cons_nl]
  | cons c l ih =>
    have hc : c ≠ '\n' := fun he => hl (he ▸ List.mem_cons_self c l)
    rw [List.cons_append, splitlines_cons_not_nl hc,
        ih (fun hm => hl (List.mem_cons_of_mem c hm))]

theorem splitlines_no_nl_single {cs : List Char} (h : '\n' ∉ cs) :
    splitlinesCh cs = if cs = [] then [] else [cs] := by
  induction cs with
  | nil => rfl
  | cons c cs ih =>
    have hc : c ≠ '\n' := fun he => h (he ▸ List.mem_cons_self c cs)
    rw [splitlines_cons_not_nl hc, ih (fun hm => h (List.mem_cons_of_mem c hm))]
    by_cases hcs : cs = []
    · subst hcs
      rfl
    · rw [if_neg hcs, if_neg (by simp)]

theorem mem_splitlines_join {ls : List (List Char)}
    (h : ∀ l ∈ ls, '\n' ∉ l) :
    ∀ l' ∈ splitlinesCh (joinCh ls), l' ∈ ls := by
  induction ls with
  | nil => intro l' hl'; cases hl'
  | cons l ls ih =>
    cases ls with
    | nil =>
      intro l' hl'
      rw [show joinCh [l] = l from rfl,
          splitlines_no_nl_single (h l (List.mem_singleton.2 rfl))] at hl'
      by_cases hl : l = []
      · rw [if_pos hl] at hl'; cases hl'
      · rw [if_neg hl] at hl'
        rcases List.mem_singleton.1 hl' with rfl
        exact List.mem_cons_self _ _
    | cons l2 ls2 =>
      intro l' hl'
      rw [show joinCh (l :: l2 :: ls2) = l ++ '\n' :: joinCh (l2 :: ls2) from rfl,
          splitlines_append_nl (h l (List.mem_cons_self _ _))] at hl'
      rcases List.mem_cons.1 hl' with rfl | hl2
      · exact List.mem_cons_self _ _
      · exact List.mem_cons_of_mem l
          (ih (fun x hx => h x (List.mem_cons_of_mem l hx)) l' hl2)

/-- The effect of rstrip on the line decomposition: trailing all-whitespace
lines disappear and the new last line is rstripped. -/
def rstripLines : List (List Char) → List (List Char)
  | [] => []
  | l :: ls =>
    match rstripLines ls with
    | [] => if rstripCh l = [] then [] else [rstripCh l]
    | ls' => l :: ls'

theorem rstripLines_cons (l : List Char) (ls : List (List Char)) :
    rstripLines (l :: ls) =
      (match rstripLines ls with
       | [] => if rstripCh l = [] then [] else [rstripCh l]
       | ls' => l :: ls') := rfl

theorem rstripLines_eq_nil {m : List Char} {ms : List (List Char)}
    (h : rstripLines (m :: ms) = []) :
    rstripLines ms = [] ∧ rstripCh m = [] := by
  rw [rstripLines_cons] at h
  by_cases h1 : rstripLines ms = []
  · refine ⟨h1, ?_⟩
    rw [h1] at h
    by_cases h2 : rstripCh m = []
    · exact h2
    · rw [if_neg h2] at h
      exact absurd h (by simp)
  · exfalso
    obtain ⟨t, ts, ht⟩ := List.exists_cons_of_ne_nil h1
    rw [ht] at h
    exact absurd h (by simp)

theorem splitlines_rstrip (cs : List Char) :
    splitlinesCh (rstripCh cs) = rstripLines (splitlinesCh cs) := by
  induction cs with
  | nil => rfl
  | cons c cs ih =>
    rw [rstrip_cons]
    by_cases h0 : rstripCh cs = []
    · rw [if_pos h0]
      rw [h0] at ih
      have ihn : rstripLines (splitlinesCh cs) = [] := ih.symm
      by_cases hw : isWS c = true
      · rw [if_pos hw]
        by_cases hnl : c = '\n'
        · subst hnl
          rw [splitlines_cons_nl]
          show splitlinesCh [] = rstripLines ([] :: splitlinesCh cs)
          rw [rstripLines_cons, ihn]
          rfl
        · rw [splitlines_cons_not_nl hnl]
          cases hsc : splitlinesCh cs with
          | nil =>
            show splitlinesCh [] = rstripLines [[c]]
            rw [rstripLines_cons]
            have hrc : rstripCh [c] = [] := by
              rw [rstrip_cons, if_pos (show rstripCh [] = [] from rfl), if_pos hw]
            rw [show rstripLines ([] : List (List Char)) = [] from rfl, hrc]
            rfl
          | cons m ms =>
            rw [hsc] at ihn
            obtain ⟨hrm, hm2⟩ := rstripLines_eq_nil ihn
            show splitlinesCh [] = rstripLines ((c :: m) :: ms)
            rw [rstripLines_cons, hrm]
            have hcm : rstripCh (c :: m) = [] := by
              rw [rstrip_cons, if_pos hm2, if_pos hw]
            rw [hcm]
            rfl
      · rw [if_neg hw]
        have hnl : c ≠ '\n' := by
          intro he
          rw [he] at hw
          exact hw rfl
        rw [show splitlinesCh [c] =
            [[c]] from by rw [splitlines_cons_not_nl hnl]; rfl]
        rw [splitlines_cons_not_nl hnl]
        cases hsc : splitlinesCh cs with
        | nil =>
          rw [rstripLines_cons]
          have hrc : rstripCh [c] = [c] := by
            rw [rstrip_cons, if_pos (show rstripCh [] = [] from rfl), if_neg hw]
          rw [show rstripLines ([] : List (List Char)) = [] from rfl, hrc,
              if_neg (by simp)]
        | cons m ms =>
          rw [hsc] at ihn
          obtain ⟨hrm, hm2⟩ := rstripLines_eq_nil ihn
          rw [rstripLines_cons, hrm]
          have hcm : rstripCh (c :: m) = [c] := by
            rw [rstrip_cons, if_pos hm2, if_neg hw]
          rw [hcm, if_neg (by simp)]
    · rw [if_neg h0]
      have hcs : cs ≠ [] := by
        intro he
        rw [he] at h0
        exact h0 rfl
      by_cases hnl : c = '\n'
      · subst hnl
        rw [splitlines_cons_nl, splitlines_cons_nl, ih]
        have hne : rstripLines (splitlinesCh cs) ≠ [] := by
          rw [← ih]
          exact splitlines_ne_nil h0
        obtain ⟨t, ts, ht⟩ := List.exists_cons_of_ne_nil hne
        rw [ht, rstripLines_cons, ht]
      · rw [splitlines_cons_not_nl hnl, splitlines_cons_not_nl hnl]
        obtain ⟨k, ks, hk⟩ := List.exists_cons_of_ne_nil (splitlines_ne_nil h0)
        obtain ⟨m, ms, hm⟩ := List.exists_cons_of_ne_nil (splitlines_ne_nil hcs)
        have hkm : k :: ks = rstripLines (m :: ms) := by
          have h2 := ih
          rw [hk, hm] at h2
          exact h2
        rw [hk, hm]
        cases hrm : rstripLines ms with
        | nil =>
          rw [rstripLines_cons, hrm] at hkm
          by_cases h2 : rstripCh m = []
          · rw [if_pos h2] at hkm
            exact absurd hkm (by simp)
          · rw [if_neg h2] at hkm
            injection hkm with hk1 hk2
            subst hk1
            subst hk2
            rw [rstripLines_cons, hrm]
            have hcm : rstripCh (c :: m) = c :: rstripCh m := by
              rw [rstrip_cons, if_neg h2]
            rw [hcm, if_neg (by simp)]
        | cons t ts =>
          rw [rstripLines_cons, hrm] at hkm
          injection hkm with hk1 hk2
          subst hk1
          subst hk2
          rw [rstripLines_cons, hrm]

theorem mem_rstripLines {L : List (List Char)} :
    ∀ l' ∈ rstripLines L, ∃ l ∈ L, stripCh l' = stripCh l := by
  induction L with
  | nil => intro l' h; cases h
  | cons l ls ih =>
    intro l' h
    rw [rstripLines_cons] at h
    cases hr : rstripLines ls with
    | nil =>
      rw [hr] at h
      by_cases h2 : rstripCh l = []
      · rw [if_pos h2] at h
        cases h
      · rw [if_neg h2] at h
        rcases List.mem_singleton.1 h with rfl
        exact ⟨l, List.mem_cons_self _ _, strip_rstrip l⟩
    | cons t ts =>
      rw [hr] at h
      rcases List.mem_cons.1 h with rfl | h2
      · exact ⟨l', List.mem_cons_self _ _, rfl⟩
      · obtain ⟨x, hx, he⟩ := ih l' (by rw [hr]; exact h2)
        exact ⟨x, List.mem_cons_of_mem l hx, he⟩

theorem mem_splitlines_lstrip (cs : List Char) :
    ∀ l' ∈ splitlinesCh (lstripCh cs),
      ∃ l ∈ splitlinesCh cs, stripCh l' = stripCh l := by
  induction cs with
  | nil => intro l' h; cases h
  | cons c cs ih =>
    by_cases hw : isWS c = true
    · rw [lstrip_ws_cons hw]
      intro l' hl'
      obtain ⟨l, hl, heq⟩ := ih l' hl'
      by_cases hnl : c = '\n'
      · subst hnl
        refine ⟨l, ?_, heq⟩
        rw [splitlines_cons_nl]
        exact List.mem_cons_of_mem _ hl
      · cases hsc : splitlinesCh cs with
        | nil =>
          rw [hsc] at hl
          cases hl
        | cons m ms =>
          rw [hsc] at hl
          rcases List.mem_cons.1 hl with rfl | hl2
          · refine ⟨c :: l, ?_, ?_⟩
            · rw [splitlines_cons_not_nl hnl, hsc]
              exact List.mem_cons_self _ _
            · rw [heq, strip_ws_cons hw]
          · refine ⟨l, ?_, heq⟩
            rw [splitlines_cons_not_nl hnl, hsc]
            exact List.mem_cons_of_mem _ hl2
    · rw [lstrip_not_ws_cons (Bool.eq_false_iff.2 hw)]
      intro l' hl'
      exact ⟨l', hl', rfl⟩

/-- Every line of the stripped join of some lines has, up to strip, a
counterpart among those lines. -/
theorem strip_join_lines_mem {ls : List (List Char)}
    (h : ∀ l ∈ ls, '\n' ∉ l) :
    ∀ l' ∈ splitlinesCh (stripCh (joinCh ls)),
      ∃ l ∈ ls, stripCh l' = stripCh l := by
  intro l' hl'
  have hl2 : l' ∈ splitlinesCh (lstripCh (rstripCh (joinCh ls))) := hl'
  obtain ⟨l1, hl1, he1⟩ := mem_splitlines_lstrip (rstripCh (joinCh ls)) l' hl2
  rw [splitlines_rstrip] at hl1
  obtain ⟨l2, hl2b, he2⟩ := mem_rstripLines l1 hl1
  exact ⟨l2, mem_splitlines_join h l2 hl2b, by rw [he1, he2]⟩

theorem lineIsCutoff_strip_congr {a b : List Char} (h : stripCh a = stripCh b) :
    lineIsCutoff a = lineIsCutoff b := by
  unfold lineIsCutoff
  rw [h]

/-- C6 amended: quote-stripping is idempotent on every body whose cleaned
output contains no line that starts, after stripping, with the quote
marker.  (The counterexample shows the truncate branch can keep such lines,
which the second pass then removes.) -/
theorem c6_clean_idempotent_amended (body : String)
    (h : ∀ l ∈ splitlinesCh (clean_email_body body).data, isQuoteLine l = false) :
    clean_email_body (clean_email_body body) = clean_email_body body := by
  have hout : ∃ ls₀, (∀ l ∈ ls₀, lineIsCutoff l = false) ∧ (∀ l ∈ ls₀, '\n' ∉ l) ∧
      cleanCh body.data = stripCh (joinCh ls₀) := by
    by_cases hany : (splitlinesCh body.data).any lineIsCutoff = true
    · refine ⟨(splitlinesCh body.data).takeWhile (fun l => !lineIsCutoff l), ?_, ?_, ?_⟩
      · intro l hl
        have h2 := List.mem_takeWhile_imp hl
        simpa using h2
      · intro l hl
        exact splitlines_no_nl body.data l ((List.takeWhile_sublist _).subset hl)
      · unfold cleanCh
        rw [if_pos hany]
    · refine ⟨(splitlinesCh body.data).filter (fun l => !isQuoteLine l), ?_, ?_, ?_⟩
      · intro l hl
        have hm := (List.mem_filter.1 hl).1
        have hfalse : (splitlinesCh body.data).any lineIsCutoff = false :=
          Bool.eq_false_iff.2 hany
        exact Bool.eq_false_iff.2 ((List.any_eq_false.1 hfalse) l hm)
      · intro l hl
        exact splitlines_no_nl body.data l ((List.mem_filter.1 hl).1)
      · unfold cleanCh
        rw [if_neg hany]
  obtain ⟨ls₀, hcut, hnl, heq⟩ := hout
  have hmain : cleanCh (cleanCh body.data) = cleanCh body.data := by
    have hoeq : (clean_email_body body).data = stripCh (joinCh ls₀) := by
      show cleanCh body.data = stripCh (joinCh ls₀)
      exact heq
    have hlines : ∀ l' ∈ splitlinesCh (stripCh (joinCh ls₀)),
        lineIsCutoff l' = false := by
      intro l' hl'
      obtain ⟨l, hl, he⟩ := strip_join_lines_mem hnl l' hl'
      rw [lineIsCutoff_strip_congr he]
      exact hcut l hl
    have hquote : ∀ l' ∈ splitlinesCh (stripCh (joinCh ls₀)),
        isQuoteLine l' = false := by
      intro l' hl'
      apply h
      rw [hoeq]
      exact hl'
    have hany2 : (splitlinesCh (stripCh (joinCh ls₀))).any lineIsCutoff = false := by
      rw [List.any_eq_false]
      exact fun x hx => Bool.eq_false_iff.1 (hlines x hx)
    have hjoin : joinCh (splitlinesCh (stripCh (joinCh ls₀))) =
        stripCh (joinCh ls₀) := by
      apply join_splitlines
      intro c hc he
      have hws := strip_getLast_not_ws (joinCh ls₀) c hc
      rw [he] at hws
      exact absurd hws (by decide)
    have hfilter : (splitlinesCh (stripCh (joinCh ls₀))).filter
          (fun l => !isQuoteLine l) =
        splitlinesCh (stripCh (joinCh ls₀)) := by
      rw [List.filter_eq_self]
      intro a ha
      rw [hquote a ha]
      rfl
    rw [heq]
    show cleanCh (stripCh (joinCh ls₀)) = stripCh (joinCh ls₀)
    unfold cleanCh
    rw [if_neg (by rw [hany2]; exact Bool.false_ne_true), hfilter, hjoin, strip_idem]
  show String.mk (cleanCh (cleanCh body.data)) = String.mk (cleanCh body.data)
  rw [hmain]

/-- C6 amended witness: a body truncated at an On-wrote line, whose cleaned
output has no quote-marker lines. -/
theorem c6_clean_idempotent_amended_witness :
    (∀ l ∈ splitlinesCh (clean_email_body "hello\nOn Mon wrote:\nbye").data,
       isQuoteLine l = false) ∧
    clean_email_body (clean_email_body "hello\nOn Mon wrote:\nbye") =
      clean_email_body "hello\nOn Mon wrote:\nbye" :=
  ⟨by decide, c6_clean_idempotent_amended "hello\nOn Mon wrote:\nbye" (by decide)⟩

end AgentApp
